import Mathlib

/-!
Verification of the awe-agentcheck orchestration core against its
natural-language specification.  Each Python function relevant to a claim
is shallowly embedded as an executable Lean definition translated from the
source (`src/awe_agentcheck/...`), and the claims are settled as theorems
about those definitions.

Python strings are modelled as Lean `String` / `List Char`; `str.strip`,
`str.lower`, substring tests and the small regular expressions used by the
code are implemented explicitly below.
-/

namespace AweAgentcheck

/-! ## Python string primitives -/

/-- The whitespace set stripped by Python's `str.strip()` (ASCII part). -/
def pyIsSpace (c : Char) : Bool :=
  c = ' ' || c = '\t' || c = '\n' || c = '\r' || c = '\x0b' || c = '\x0c'

/-- `str.lstrip()` on a character list. -/
def lstripL (l : List Char) : List Char := l.dropWhile pyIsSpace

/-- `str.rstrip()` on a character list. -/
def rstripL (l : List Char) : List Char := (l.reverse.dropWhile pyIsSpace).reverse

/-- `str.strip()` on a character list. -/
def stripL (l : List Char) : List Char := rstripL (lstripL l)

/-- `str.lower()` on a character list (ASCII, as produced by the code's inputs). -/
def lowerL (l : List Char) : List Char := l.map Char.toLower

/-- Python's `needle in haystack` substring test. -/
def containsSub (text pat : List Char) : Bool :=
  match text with
  | [] => pat.isEmpty
  | _ :: rest => pat.isPrefixOf text || containsSub rest pat

/-- `str.strip()` on `String`. -/
def pyStrip (s : String) : String := ⟨stripL s.data⟩

/-- `str.lower()` on `String`. -/
def pyLower (s : String) : String := ⟨lowerL s.data⟩

/-- Python `in` on `String`. -/
def pyContains (text pat : String) : Bool := containsSub text.data pat.data

/-! ## Participant registry (`src/awe_agentcheck/participants.py`) -/

/-- `BUILTIN_PROVIDERS` from `participants.py`, as a list with set semantics. -/
def BUILTIN_PROVIDERS : List String := ["claude", "codex", "gemini"]

/-- `_normalize_provider_name`: `str(value or '').strip().lower()`. -/
def normalize_provider_name (value : String) : String := pyLower (pyStrip value)

/-- `set_extra_providers`: clean the incoming collection and store the
difference with the builtin set. -/
def set_extra_providers (providers : Option (List String)) : List String :=
  let incoming := providers.getD []
  let cleaned := incoming.foldr
    (fun raw acc =>
      let p := normalize_provider_name raw
      if p = "" then acc
      else if pyContains p "#" then acc
      else p :: acc) []
  cleaned.filter (fun p => ¬ p ∈ BUILTIN_PROVIDERS)

/-- `register_provider`: `ValueError` on empty or `#`-containing normalized
names, no-op on builtins, otherwise add to the extras set. -/
def register_provider (extras : List String) (provider : String) :
    Except String (List String) :=
  if normalize_provider_name provider = "" then .error "provider cannot be empty"
  else if pyContains (normalize_provider_name provider) "#" then
    .error "provider cannot contain #"
  else if normalize_provider_name provider ∈ BUILTIN_PROVIDERS then .ok extras
  else if normalize_provider_name provider ∈ extras then .ok extras
  else .ok (normalize_provider_name provider :: extras)

/-- `get_supported_providers`: builtins united with the extras set. -/
def get_supported_providers (extras : List String) : List String :=
  BUILTIN_PROVIDERS ++ extras

/-- A call against the provider-registry module state. -/
inductive ProviderCall where
  | setExtra (providers : Option (List String))
  | register (provider : String)

/-- Effect of one registry call on `_EXTRA_PROVIDERS`; a `register` call that
raises leaves the state unchanged (the checks precede the mutation). -/
def apply_provider_call (extras : List String) : ProviderCall → List String
  | .setExtra ps => set_extra_providers ps
  | .register p =>
      match register_provider extras p with
      | .ok e => e
      | .error _ => extras

/-- Effect of a call sequence on the registry state. -/
def apply_provider_calls (calls : List ProviderCall) (extras : List String) :
    List String :=
  calls.foldl apply_provider_call extras

/-! ## Automation driver predicates (`src/awe_agentcheck/automation.py`) -/

/-- `should_switch_to_fallback` from `automation.py`; `s` and `r` are the
stripped, lowercased status and reason (`None` becomes `''`). -/
def should_switch_to_fallback (status : String) (reason : Option String) : Bool :=
  if pyLower (pyStrip status) ≠ "failed_system" then false
  else
    pyContains (pyLower (pyStrip (reason.getD ""))) "claude"
      || pyContains (pyLower (pyStrip (reason.getD ""))) "command failed"

/-- `should_switch_back_to_primary` from `automation.py`. -/
def should_switch_back_to_primary (status : String) (reason : Option String) : Bool :=
  if pyLower (pyStrip status) ≠ "failed_system" then false
  else if pyContains (pyLower (pyStrip (reason.getD ""))) "provider=codex"
      && (pyContains (pyLower (pyStrip (reason.getD ""))) "command_timeout"
            || pyContains (pyLower (pyStrip (reason.getD ""))) "command_not_found"
            || pyContains (pyLower (pyStrip (reason.getD ""))) "provider_limit") then true
  else false

/-! ## Domain models (`src/awe_agentcheck/domain/models.py`) -/

inductive TaskStatus where
  | queued | running | waiting_manual | passed | failed_gate | failed_system | canceled
  deriving DecidableEq, Repr

inductive ReviewVerdict where
  | no_blocker | blocker | unknown
  deriving DecidableEq, Repr

/-- `can_transition` from `domain/models.py`: membership in `_ALLOWED_TRANSITIONS`. -/
def can_transition (from_status to_status : TaskStatus) : Bool :=
  match from_status with
  | .queued => to_status = .running || to_status = .canceled
  | .running =>
      to_status = .waiting_manual || to_status = .passed || to_status = .failed_gate
        || to_status = .failed_system || to_status = .canceled
  | .waiting_manual => to_status = .running || to_status = .canceled
  | .failed_gate => to_status = .running || to_status = .canceled
  | .failed_system => to_status = .running || to_status = .canceled
  | .passed => false
  | .canceled => false

/-! ## Output parsing (`src/awe_agentcheck/adapters.py`)

`str.splitlines` and the two anchored case-insensitive line regexes
`_VERDICT_RE` / `_NEXT_RE` are implemented explicitly; the regexes are
anchored (`^\s*KEYWORD\s*:\s*(tok|…)\s*$`) and deterministic, so a
left-to-right matcher is exact. -/

/-- The line-break set recognized by Python's `str.splitlines`. -/
def isPyLineBreak (c : Char) : Bool :=
  c = '\n' || c = '\r' || c = '\x0b' || c = '\x0c' || c = '\x1c' || c = '\x1d'
    || c = '\x1e' || c = '\x85' || c = '\u2028' || c = '\u2029'

/-- Prepend a character to the first line of a split result (starting a new
line when the remainder of the string produced none). -/
def consLine (c : Char) : List (List Char) → List (List Char)
  | [] => [[c]]
  | line :: lines => (c :: line) :: lines

/-- Collapse each `\r\n` pair to a single `\n` (the only two-character line
break of `str.splitlines`). -/
def collapseCRLF : List Char → List Char
  | [] => []
  | c :: cs =>
    if c = '\r' ∧ cs.head? = some '\n' then collapseCRLF cs
    else c :: collapseCRLF cs

/-- Split on the single-character line breaks, producing no final empty line. -/
def splitCore : List Char → List (List Char)
  | [] => []
  | c :: cs => if isPyLineBreak c then [] :: splitCore cs else consLine c (splitCore cs)

/-- `str.splitlines`: split on line breaks, treating `\r\n` as one break and
producing no final empty line. -/
def pySplitlines (l : List Char) : List (List Char) := splitCore (collapseCRLF l)

/-- Match a literal (given in lower case) case-insensitively at the front of a
line, returning the remainder. -/
def stripPrefixCI : List Char → List Char → Option (List Char)
  | [], rest => some rest
  | _ :: _, [] => none
  | p :: ps, c :: cs => if Char.toLower c = p then stripPrefixCI ps cs else none

/-- First `some` produced by `f` over a list. -/
def firstSome {α β : Type} (f : α → Option β) : List α → Option β
  | [] => none
  | x :: xs =>
    match f x with
    | some y => some y
    | none => firstSome f xs

/-- One alternation branch of the directive regex: the token (case-insensitive)
followed by `\s*$`. -/
def tryDirectiveToken (tok line : List Char) : Option (List Char) :=
  match stripPrefixCI tok line with
  | none => none
  | some rest => if rest.all pyIsSpace then some tok else none

/-- The shared shape of `_VERDICT_RE` and `_NEXT_RE`:
`^\s*KEYWORD\s*:\s*(tok₁|tok₂|…)\s*$`, case-insensitive, returning the matched
token lowercased. -/
def directiveToken (kw : List Char) (toks : List (List Char)) (line : List Char) :
    Option (List Char) :=
  match stripPrefixCI kw (line.dropWhile pyIsSpace) with
  | none => none
  | some l2 =>
    match l2.dropWhile pyIsSpace with
    | ':' :: l4 => firstSome (fun tok => tryDirectiveToken tok (l4.dropWhile pyIsSpace)) toks
    | _ => none

/-- `_VERDICT_RE` applied to one line. -/
def verdictLineToken (line : List Char) : Option (List Char) :=
  directiveToken "verdict".data
    ["no_blocker".data, "blocker".data, "unknown".data] line

/-- `_NEXT_RE` applied to one line. -/
def nextActionLineToken (line : List Char) : Option (List Char) :=
  directiveToken "next_action".data
    ["retry".data, "pass".data, "stop".data] line

/-- `parse_verdict` from `adapters.py`. -/
def parse_verdict (output : String) : String :=
  match firstSome verdictLineToken (pySplitlines output.data) with
  | some tok => ⟨tok⟩
  | none => "unknown"

/-- `parse_next_action` from `adapters.py`. -/
def parse_next_action (output : String) : Option String :=
  (firstSome nextActionLineToken (pySplitlines output.data)).map
    (fun tok => (⟨tok⟩ : String))

/-- Spec-side description of a directive line: up to surrounding whitespace
(and whitespace around the colon, per the spec's regex) the line reads,
case-insensitively, `KEYWORD: TOKEN` with `TOKEN` from the fixed vocabulary.
`tok` is the lowercased token. -/
def IsDirectiveLineSpec (kw : List Char) (toks : List (List Char))
    (line tok : List Char) : Prop :=
  ∃ (w1 w2 w3 w4 kwp tkp : List Char),
    line = w1 ++ kwp ++ w2 ++ ':' :: (w3 ++ tkp ++ w4) ∧
    (∀ c ∈ w1, pyIsSpace c = true) ∧ (∀ c ∈ w2, pyIsSpace c = true) ∧
    (∀ c ∈ w3, pyIsSpace c = true) ∧ (∀ c ∈ w4, pyIsSpace c = true) ∧
    lowerL kwp = kw ∧ lowerL tkp = tok ∧ tok ∈ toks

/-! ## Provider-limit classification and the runner retry loop
(`src/awe_agentcheck/adapters.py`) -/

/-- `_LIMIT_PATTERNS` from `adapters.py`, in source order. -/
def _LIMIT_PATTERNS : List String :=
  ["hit your limit", "usage limit", "rate limit", "ratelimitexceeded",
   "resource_exhausted", "model_capacity_exhausted", "no capacity available",
   "quota exceeded", "insufficient_quota"]

namespace ParticipantRunner

/-- The `text` local of `_is_provider_limit_output`: `(output or '').strip().lower()`. -/
def limitText (output : String) : List Char := lowerL (stripL output.data)

/-- `ParticipantRunner._is_provider_limit_output`. -/
def _is_provider_limit_output (output : String) : Bool :=
  if (limitText output).isEmpty then false
  else _LIMIT_PATTERNS.any (fun pat => containsSub (limitText output) pat.data)

/-- `ParticipantRunner._clip_prompt_for_retry`. -/
def _clip_prompt_for_retry (prompt : String) : String :=
  if prompt.length ≤ 1200 then prompt
  else
    (⟨prompt.data.take 1200⟩ : String) ++ "\n\n[retry prompt clipped: "
      ++ toString (prompt.length - 1200) ++ " chars removed]"

/-- Outcome of one `subprocess.run` call, the runner's only effectful step. -/
inductive AttemptOutcome where
  | notFound
  | timeout
  | completed (stdout stderr : String) (returncode : Int)

/-- The runner's result record (`AdapterResult`); the wall-clock
`duration_seconds` field is not modelled. -/
structure AdapterResult where
  output : String
  verdict : String
  next_action : Option String
  returncode : Int
  deriving DecidableEq, Repr

/-- `command_not_found` error message raised by `run`. -/
def command_not_found_msg (provider effective_command : String) : String :=
  "command_not_found provider=" ++ provider ++ " command=" ++ effective_command

/-- `command_timeout` error message raised by `run` after the last attempt. -/
def command_timeout_msg (provider effective_command : String)
    (timeout_seconds attempts : Nat) : String :=
  "command_timeout provider=" ++ provider ++ " command=" ++ effective_command
    ++ " timeout_seconds=" ++ toString timeout_seconds
    ++ " attempts=" ++ toString attempts

/-- `provider_limit` error message raised by `run`. -/
def provider_limit_msg (provider effective_command : String) : String :=
  "provider_limit provider=" ++ provider ++ " command=" ++ effective_command

/-- The `for attempt in range(1, attempts + 1)` loop of `run`: each iteration
calls `subprocess.run` with the constant `timeout_seconds` and the current
prompt; `FileNotFoundError` raises immediately, a completion leaves the loop,
a timeout clips the prompt and retries until attempts are exhausted.  Returns
the `(timeout, prompt)` pair passed to every subprocess call, and the loop's
outcome. -/
def runAttemptLoop (behavior : Nat → AttemptOutcome) (timeout_seconds : Nat)
    (errNotFound errTimeout : String) :
    Nat → Nat → String → List (Nat × String) × Except String (String × String × Int)
  | 0, _, _ => ([], .error errTimeout)
  | n + 1, idx, prompt =>
    match behavior idx with
    | .notFound => ([(timeout_seconds, prompt)], .error errNotFound)
    | .completed out err rc => ([(timeout_seconds, prompt)], .ok (out, err, rc))
    | .timeout =>
      if n = 0 then ([(timeout_seconds, prompt)], .error errTimeout)
      else
        let next := runAttemptLoop behavior timeout_seconds errNotFound errTimeout
          n (idx + 1) (_clip_prompt_for_retry prompt)
        ((timeout_seconds, prompt) :: next.1, next.2)

/-- `'\n'.join(...)` used when merging stderr into the output. -/
def joinLinesNL : List (List Char) → List Char
  | [] => []
  | [l] => l
  | l :: ls => l ++ '\n' :: joinLinesNL ls

/-- The post-loop output normalization of `run`: strip stdout and, on a
non-zero exit, merge the stripped stderr in. -/
def mergedOutput (stdout stderr : String) (rc : Int) : String :=
  if rc ≠ 0 then
    ⟨stripL (joinLinesNL (([stripL stdout.data, stripL stderr.data]).filter
      (fun p => ¬ p.isEmpty)))⟩
  else ⟨stripL stdout.data⟩

/-- Result of `ParticipantRunner.run` together with the `(timeout, prompt)`
arguments of every subprocess attempt it made.  The subprocess itself is
abstracted as `behavior`, mapping the attempt index to its outcome. -/
structure RunTrace where
  invocations : List (Nat × String)
  result : Except String AdapterResult

/-- `ParticipantRunner.run` (non-dry-run path, after argv resolution):
`effective_command` is the rendered argv string. -/
def run (provider effective_command : String) (timeout_retries : Nat)
    (prompt : String) (timeout_seconds : Nat)
    (behavior : Nat → AttemptOutcome) : RunTrace :=
  let attempts := timeout_retries + 1
  let loopOut := runAttemptLoop behavior timeout_seconds
    (command_not_found_msg provider effective_command)
    (command_timeout_msg provider effective_command timeout_seconds attempts)
    attempts 0 prompt
  { invocations := loopOut.1
    result :=
      match loopOut.2 with
      | .error e => .error e
      | .ok (stdout, stderr, rc) =>
        if _is_provider_limit_output (mergedOutput stdout stderr rc) then
          .error (provider_limit_msg provider effective_command)
        else
          .ok { output := mergedOutput stdout stderr rc
                verdict := parse_verdict (mergedOutput stdout stderr rc)
                next_action := parse_next_action (mergedOutput stdout stderr rc)
                returncode := rc } }

end ParticipantRunner

/-! ## Gate evaluator (`src/awe_agentcheck/domain/gate.py`) -/

structure GateOutcome where
  passed : Bool
  reason : String
  deriving DecidableEq, Repr

/-- `evaluate_medium_gate` from `domain/gate.py`. -/
def evaluate_medium_gate (tests_ok lint_ok : Bool)
    (reviewer_verdicts : List ReviewVerdict) : GateOutcome :=
  let verdicts := reviewer_verdicts
  if !tests_ok then ⟨false, "tests_failed"⟩
  else if !lint_ok then ⟨false, "lint_failed"⟩
  else if verdicts.any (· = ReviewVerdict.blocker) then ⟨false, "review_blocker"⟩
  else if verdicts.any (· = ReviewVerdict.unknown) then ⟨false, "review_unknown"⟩
  else if verdicts.isEmpty then ⟨false, "review_missing"⟩
  else ⟨true, "passed"⟩



/-! ## Sandbox ignore filter and workspace bootstrap
(`src/awe_agentcheck/service_layers.py`, `TaskManagementService`) -/

/-- `rel_path.replace('\\', '/')`. -/
def replaceBackslash (l : List Char) : List Char :=
  l.map (fun c => if c = '\\' then '/' else c)

/-- `while normalized.startswith('./'): normalized = normalized[2:]`. -/
def dropDotSlash : List Char → List Char
  | [] => []
  | [c] => [c]
  | c1 :: c2 :: rest =>
    if c1 = '.' ∧ c2 = '/' then dropDotSlash rest else c1 :: c2 :: rest

/-- `while normalized.startswith('/'): normalized = normalized[1:]`. -/
def dropSlash : List Char → List Char
  | [] => []
  | c :: rest => if c = '/' then dropSlash rest else c :: rest

/-- Split a character list on a separator (Python `str.split(sep)`). -/
def splitOnChar (sep : Char) : List Char → List (List Char)
  | [] => [[]]
  | c :: rest =>
    if c = sep then [] :: splitOnChar sep rest
    else consLine c (splitOnChar sep rest)

/-- `pathlib.Path(normalized).name`: the last path component, with empty and
`.` components dropped. -/
def leafName (l : List Char) : List Char :=
  (((splitOnChar '/' l).filter
    (fun p => ¬ (p = [] ∨ p = ['.']))).getLast?).getD []

/-- `str.rstrip(' .')`. -/
def rstripDotSpace (l : List Char) : List Char :=
  (l.reverse.dropWhile (fun c => c = ' ' || c = '.')).reverse

/-- The `(com|lpt)[1-9]` full-match of `_is_windows_reserved_device_name`. -/
def reservedComLpt (stem : List Char) : Bool :=
  match stem with
  | [a, b, c, d] =>
    ((a = 'c' && b = 'o' && c = 'm') || (a = 'l' && b = 'p' && c = 't'))
      && ('1' ≤ d && d ≤ '9')
  | _ => false

/-- `TaskManagementService._is_windows_reserved_device_name`. -/
def _is_windows_reserved_device_name (filename : List Char) : Bool :=
  if (lowerL (rstripDotSpace (stripL filename))).isEmpty then false
  else
    if ((lowerL (rstripDotSpace (stripL filename))).takeWhile (· ≠ ':')).takeWhile (· ≠ '.')
        ∈ (["con".data, "prn".data, "aux".data, "nul".data] : List (List Char)) then true
    else reservedComLpt
      (((lowerL (rstripDotSpace (stripL filename))).takeWhile (· ≠ ':')).takeWhile (· ≠ '.'))

/-- The `ignored_heads` set of `_is_sandbox_ignored`. -/
def ignored_heads : List (List Char) :=
  [".git".data, ".agents".data, ".claude".data, ".venv".data,
   "__pycache__".data, ".pytest_cache".data, ".ruff_cache".data,
   "node_modules".data, ".mypy_cache".data, ".idea".data, ".vscode".data]

/-- The keyword alternatives of the secret-name regular expression. -/
def secretKeywords : List (List Char) :=
  ["token".data, "tokens".data, "secret".data, "secrets".data,
   "apikey".data, "api-key".data, "access-key".data]

/-- The boundary class `[._-]` of the secret-name regular expression. -/
def isBoundaryChar (c : Char) : Bool := c = '.' || c = '_' || c = '-'

/-- `re.search(r'(^|[._-])(token|…)([._-]|$)', leaf)`: some keyword occurs at
a position bounded on both sides by the start/end of the string or a
boundary character. -/
def secretLeafMatch (leaf : List Char) : Bool :=
  secretKeywords.any (fun kw =>
    (List.range (leaf.length + 1)).any (fun i =>
      (i == 0 || (match leaf.get? (i - 1) with
        | some c => isBoundaryChar c
        | none => false))
      && ((leaf.drop i).take kw.length == kw)
      && (i + kw.length == leaf.length
          || (match leaf.get? (i + kw.length) with
            | some c => isBoundaryChar c
            | none => false))))

/-- The normalization prefix of `_is_sandbox_ignored`: backslash-to-slash,
strip, then the two `while` loops. -/
def sandboxNormalize (l : List Char) : List Char :=
  dropSlash (dropDotSlash (stripL (replaceBackslash l)))

/-- The body of `_is_sandbox_ignored` after normalization. -/
def sandboxIgnoredCore (normalized : List Char) : Bool :=
  if normalized.isEmpty then false
  else if normalized.takeWhile (· ≠ '/') ∈ ignored_heads then true
  else if ".pyc".data.isSuffixOf normalized || ".pyo".data.isSuffixOf normalized then true
  else if _is_windows_reserved_device_name (leafName normalized) then true
  else if lowerL (leafName normalized) = ".env".data
      || ".env.".data.isPrefixOf (lowerL (leafName normalized)) then true
  else if ".pem".data.isSuffixOf (lowerL (leafName normalized))
      || ".key".data.isSuffixOf (lowerL (leafName normalized)) then true
  else secretLeafMatch (lowerL (leafName normalized))

/-- `TaskManagementService._is_sandbox_ignored`. -/
def _is_sandbox_ignored (rel_path : String) : Bool :=
  sandboxIgnoredCore (sandboxNormalize rel_path.data)

mutual
/-- A project tree entry, as traversed by `os.walk` in
`_bootstrap_sandbox_workspace` (a mutual inductive so that the walk is
structurally recursive). -/
inductive FsEntry where
  | file (name : String)
  | dir (name : String) (children : FsForest)
inductive FsForest where
  | nil
  | cons (e : FsEntry) (rest : FsForest)
end

/-- Relative-path join as performed by the walk
(`f'{rel_root_text}/{name}' if rel_root_text else name`). -/
def joinRel (root name : String) : String :=
  if root = "" then name else root ++ "/" ++ name

mutual
/-- The copy set of `_bootstrap_sandbox_workspace`: a file is copied when its
relative path is not ignored and no directory on the way was ignored (ignored
directories are pruned from `dirs` and never descended into). -/
def bootstrapEntry : String → FsEntry → List String
  | relRoot, .file n =>
    if _is_sandbox_ignored (joinRel relRoot n) then []
    else [joinRel relRoot n]
  | relRoot, .dir n children =>
    if _is_sandbox_ignored (joinRel relRoot n) then []
    else bootstrapForest (joinRel relRoot n) children
def bootstrapForest : String → FsForest → List String
  | _, .nil => []
  | relRoot, .cons e rest =>
    bootstrapEntry relRoot e ++ bootstrapForest relRoot rest
end

/-- `_bootstrap_sandbox_workspace` on a whole project tree: the relative
paths of every file copied into the sandbox. -/
def bootstrap_sandbox_files (tree : FsForest) : List String :=
  bootstrapForest "" tree

/-- A path component as produced by `os.walk` and `relative_to(...).as_posix()`:
nonempty, with no separator, no backslash, no surrounding-whitespace
characters, and not the `.` component dropped by `pathlib`. -/
def isCleanComponent (n : List Char) : Bool :=
  !n.isEmpty
    && n.all (fun c => c ≠ '/' && c ≠ '\\' && !pyIsSpace c)
    && n ≠ ['.']

/-- Join components with `/` (the shape of every walk-produced path). -/
def joinPath : List String → String
  | [] => ""
  | [c] => c
  | c :: rest => c ++ "/" ++ joinPath rest

/-- The reserved device base names of the spec (`con`, `prn`, `aux`, `nul`,
`com1..9`, `lpt1..9`). -/
def RESERVED_DEVICE_BASES : List String :=
  ["con", "prn", "aux", "nul",
   "com1", "com2", "com3", "com4", "com5", "com6", "com7", "com8", "com9",
   "lpt1", "lpt2", "lpt3", "lpt4", "lpt5", "lpt6", "lpt7", "lpt8", "lpt9"]

/-! ## `create_task` bounded-field normalization
(`src/awe_agentcheck/service_layers.py`, `TaskManagementService.create_task`)

`create_task` raises `ValidationError` (with a `field` pointer) for invalid
participants, workspace paths, languages and similar fields, but the three
bounded integer policy fields are not validated: they are clamped by the
expressions below and no error path exists for them. -/

/-- `evolution_level = max(0, min(2, int(payload.evolution_level)))`. -/
def create_task_evolution_level (x : Int) : Int := max 0 (min 2 x)

/-- `self_loop_mode = max(0, min(1, int(payload.self_loop_mode)))`. -/
def create_task_self_loop_mode (x : Int) : Int := max 0 (min 1 x)

/-- `max_rounds = max(1, min(20, int(payload.max_rounds)))`. -/
def create_task_max_rounds (x : Int) : Int := max 1 (min 20 x)

end AweAgentcheck

namespace AweAgentcheck

/-! ## Helper lemmas on the Python string primitives -/

theorem charToNat_inj {a b : Char} (h : a.toNat = b.toNat) : a = b := by
  have := congrArg Char.ofNat h
  rwa [Char.ofNat_toNat, Char.ofNat_toNat] at this

theorem pyIsSpace_iff_toNat (c : Char) :
    pyIsSpace c = true ↔
      c.toNat = 32 ∨ c.toNat = 9 ∨ c.toNat = 10 ∨ c.toNat = 13
        ∨ c.toNat = 11 ∨ c.toNat = 12 := by
  simp only [pyIsSpace, Bool.or_eq_true, decide_eq_true_eq]
  constructor
  · rintro (((((rfl | rfl) | rfl) | rfl) | rfl) | rfl) <;> simp
  · rintro (h | h | h | h | h | h)
    · exact Or.inl (Or.inl (Or.inl (Or.inl (Or.inl (charToNat_inj h)))))
    · exact Or.inl (Or.inl (Or.inl (Or.inl (Or.inr (charToNat_inj h)))))
    · exact Or.inl (Or.inl (Or.inl (Or.inr (charToNat_inj h))))
    · exact Or.inl (Or.inl (Or.inr (charToNat_inj h)))
    · exact Or.inl (Or.inr (charToNat_inj h))
    · exact Or.inr (charToNat_inj h)

/-- `str.lower` maps whitespace to itself and never produces whitespace. -/
theorem pyIsSpace_toLower (c : Char) : pyIsSpace (Char.toLower c) = pyIsSpace c := by
  simp only [Char.toLower]
  split
  case isTrue h =>
    obtain ⟨h65, h90⟩ := h
    have hfalse : pyIsSpace c = false := by
      rw [Bool.eq_false_iff]
      intro hsp
      rcases (pyIsSpace_iff_toNat c).mp hsp with h' | h' | h' | h' | h' | h' <;> omega
    have hres : ∀ m, 65 ≤ m → m ≤ 90 → pyIsSpace (Char.ofNat (m + 32)) = false := by
      intro m hm1 hm2
      interval_cases m <;> decide
    rw [hfalse, hres c.toNat h65 h90]
  case isFalse h => rfl

theorem pyIsSpace_comp_toLower : (pyIsSpace ∘ Char.toLower) = pyIsSpace :=
  funext pyIsSpace_toLower

theorem lowerL_lstripL (l : List Char) : lstripL (lowerL l) = lowerL (lstripL l) := by
  unfold lstripL lowerL
  rw [List.dropWhile_map, pyIsSpace_comp_toLower]

theorem lowerL_rstripL (l : List Char) : rstripL (lowerL l) = lowerL (rstripL l) := by
  unfold rstripL lowerL
  rw [← List.map_reverse, List.dropWhile_map, pyIsSpace_comp_toLower]
  simp [List.map_reverse]

theorem lowerL_stripL (l : List Char) : stripL (lowerL l) = lowerL (stripL l) := by
  unfold stripL
  rw [lowerL_lstripL, lowerL_rstripL]

theorem containsSub_iff (l pat : List Char) : containsSub l pat = true ↔ pat <:+: l := by
  induction l with
  | nil =>
      simp only [containsSub, List.isEmpty_iff]
      constructor
      · exact fun h => h ▸ List.infix_refl []
      · exact List.eq_nil_of_infix_nil
  | cons c rest ih =>
      simp [containsSub, Bool.or_eq_true, ih, List.infix_cons_iff]

theorem lstripL_infix_self (l : List Char) : lstripL l <:+: l :=
  (List.dropWhile_suffix _).isInfix

theorem rstripL_prefix_self (l : List Char) : rstripL l <+: l := by
  unfold rstripL
  have h : (List.dropWhile pyIsSpace l.reverse).reverse <+: l.reverse.reverse :=
    List.reverse_prefix.mpr (List.dropWhile_suffix pyIsSpace)
  rwa [List.reverse_reverse] at h

theorem stripL_infix_self (l : List Char) : stripL l <:+: l :=
  ((rstripL_prefix_self (lstripL l)).isInfix).trans (lstripL_infix_self l)

theorem infix_lstripL_of_head {pat l : List Char} {c1 : Char}
    (h1 : pat.head? = some c1) (hc1 : pyIsSpace c1 = false)
    (h : pat <:+: l) : pat <:+: lstripL l := by
  obtain ⟨s, t, hst⟩ := h
  obtain ⟨pt, rfl⟩ : ∃ pt, pat = c1 :: pt := by
    cases pat with
    | nil => simp at h1
    | cons a b =>
        simp only [List.head?_cons, Option.some.injEq] at h1
        exact ⟨b, by rw [h1]⟩
  unfold lstripL
  rw [← hst, List.append_assoc, List.dropWhile_append]
  split
  · rw [List.cons_append, List.dropWhile_cons, hc1]
    simp only [Bool.false_eq_true, if_false]
    exact ⟨[], t, rfl⟩
  · exact ⟨s.dropWhile pyIsSpace, t, List.append_assoc _ _ _⟩

theorem infix_rstripL_of_last {pat l : List Char} {c2 : Char}
    (h2 : pat.getLast? = some c2) (hc2 : pyIsSpace c2 = false)
    (h : pat <:+: l) : pat <:+: rstripL l := by
  have hrev : pat.reverse <:+: l.reverse := List.reverse_infix.mpr h
  have hh : pat.reverse.head? = some c2 := by rw [List.head?_reverse]; exact h2
  have hstep := infix_lstripL_of_head hh hc2 hrev
  unfold rstripL
  rw [← List.reverse_infix, List.reverse_reverse]
  exact hstep

/-- Stripping surrounding whitespace neither creates nor destroys occurrences
of a pattern that starts and ends with non-whitespace. -/
theorem infix_stripL_iff {pat : List Char} (l : List Char) {c1 c2 : Char}
    (h1 : pat.head? = some c1) (hc1 : pyIsSpace c1 = false)
    (h2 : pat.getLast? = some c2) (hc2 : pyIsSpace c2 = false) :
    pat <:+: stripL l ↔ pat <:+: l := by
  constructor
  · exact fun h => h.trans (stripL_infix_self l)
  · intro h
    exact infix_rstripL_of_last h2 hc2 (infix_lstripL_of_head h1 hc1 h)

theorem containsSub_stripL_lowerL {pat : List Char} (l : List Char) {c1 c2 : Char}
    (h1 : pat.head? = some c1) (hc1 : pyIsSpace c1 = false)
    (h2 : pat.getLast? = some c2) (hc2 : pyIsSpace c2 = false) :
    containsSub (lowerL (stripL l)) pat = containsSub (lowerL l) pat := by
  rw [← lowerL_stripL]
  rw [Bool.eq_iff_iff, containsSub_iff, containsSub_iff]
  exact infix_stripL_iff (lowerL l) h1 hc1 h2 hc2

theorem string_mk_inj {l l' : List Char} : (⟨l⟩ : String) = ⟨l'⟩ ↔ l = l' :=
  ⟨fun h => congrArg String.data h, fun h => congrArg String.mk h⟩

theorem string_mk_eq_iff {l : List Char} {s : String} :
    (⟨l⟩ : String) = s ↔ l = s.data :=
  ⟨fun h => congrArg String.data h, fun h => by cases s; exact congrArg String.mk h⟩

/-- The code's `strip().lower()` comparison agrees with the claim's
lower-then-strip description. -/
theorem status_norm_iff (status : String) (target : String) :
    pyLower (pyStrip status) = target ↔ stripL (lowerL status.data) = target.data := by
  show (⟨lowerL (stripL status.data)⟩ : String) = target ↔ _
  rw [string_mk_eq_iff, lowerL_stripL]

/-- Membership of a non-whitespace-bounded pattern is unaffected by the
code's strip step. -/
theorem pyContains_stripLower (r : String) (pat : String) (c1 c2 : Char)
    (h1 : pat.data.head? = some c1) (hc1 : pyIsSpace c1 = false)
    (h2 : pat.data.getLast? = some c2) (hc2 : pyIsSpace c2 = false) :
    (pyContains (pyLower (pyStrip r)) pat = true) ↔ pat.data <:+: lowerL r.data := by
  show containsSub (lowerL (stripL r.data)) pat.data = true ↔ _
  rw [containsSub_stripL_lowerL r.data h1 hc1 h2 hc2, containsSub_iff]

/-! ### Lemmas on `pySplitlines`, `firstSome` and the directive matcher -/

theorem collapseCRLF_cons (c : Char) (cs : List Char) :
    collapseCRLF (c :: cs) =
      if c = '\r' ∧ cs.head? = some '\n' then collapseCRLF cs
      else c :: collapseCRLF cs := rfl

theorem splitCore_cons (c : Char) (cs : List Char) :
    splitCore (c :: cs) =
      if isPyLineBreak c then [] :: splitCore cs else consLine c (splitCore cs) := rfl

theorem collapseCRLF_no_cr {l : List Char} (h : ∀ c ∈ l, c ≠ '\r') :
    collapseCRLF l = l := by
  induction l with
  | nil => rfl
  | cons c cs ih =>
      rw [collapseCRLF_cons, if_neg (fun hand => h c (List.mem_cons_self c cs) hand.1)]
      rw [ih (fun x hx => h x (List.mem_cons_of_mem c hx))]

theorem collapseCRLF_append_no_cr {l : List Char} (h : ∀ c ∈ l, c ≠ '\r')
    (rest : List Char) :
    collapseCRLF (l ++ rest) = l ++ collapseCRLF rest := by
  induction l with
  | nil => rfl
  | cons c cs ih =>
      rw [List.cons_append]
      rw [collapseCRLF_cons, if_neg (fun hand => h c (List.mem_cons_self c cs) hand.1)]
      rw [ih (fun x hx => h x (List.mem_cons_of_mem c hx))]
      rfl

theorem splitCore_no_break {l : List Char} (h : ∀ c ∈ l, isPyLineBreak c = false)
    (hne : l ≠ []) : splitCore l = [l] := by
  induction l with
  | nil => exact absurd rfl hne
  | cons c cs ih =>
      rw [splitCore_cons, h c (List.mem_cons_self c cs)]
      simp only [Bool.false_eq_true, if_false]
      cases cs with
      | nil => rfl
      | cons d ds =>
          rw [ih (fun x hx => h x (List.mem_cons_of_mem c hx)) (by simp)]
          rfl

theorem splitCore_append_nl {l : List Char} (h : ∀ c ∈ l, isPyLineBreak c = false)
    (rest : List Char) : splitCore (l ++ '\n' :: rest) = l :: splitCore rest := by
  induction l with
  | nil =>
      rw [List.nil_append]
      rw [splitCore_cons, if_pos (by decide)]
  | cons c cs ih =>
      rw [List.cons_append]
      rw [splitCore_cons, h c (List.mem_cons_self c cs)]
      simp only [Bool.false_eq_true, if_false]
      rw [ih (fun x hx => h x (List.mem_cons_of_mem c hx))]
      rfl

theorem no_break_no_cr {l : List Char} (h : ∀ c ∈ l, isPyLineBreak c = false) :
    ∀ c ∈ l, c ≠ '\r' := by
  intro c hc heq
  have := h c hc
  rw [heq] at this
  exact absurd this (by decide)

theorem pySplitlines_no_break {l : List Char} (h : ∀ c ∈ l, isPyLineBreak c = false)
    (hne : l ≠ []) : pySplitlines l = [l] := by
  unfold pySplitlines
  rw [collapseCRLF_no_cr (no_break_no_cr h)]
  exact splitCore_no_break h hne

theorem pySplitlines_append_nl {l : List Char} (h : ∀ c ∈ l, isPyLineBreak c = false)
    (rest : List Char) : pySplitlines (l ++ '\n' :: rest) = l :: pySplitlines rest := by
  unfold pySplitlines
  have hstep : collapseCRLF (l ++ '\n' :: rest)
      = l ++ '\n' :: collapseCRLF rest := by
    have h1 : ∀ c ∈ l, c ≠ '\r' := no_break_no_cr h
    rw [collapseCRLF_append_no_cr h1]
    rw [collapseCRLF_cons]
    rw [if_neg (fun hand => absurd hand.1 (by decide))]
  rw [hstep]
  exact splitCore_append_nl h (collapseCRLF rest)

theorem pySplitlines_join {ls : List (List Char)}
    (h : ∀ line ∈ ls, ∀ c ∈ line, isPyLineBreak c = false)
    (hlast : ls.getLast? ≠ some []) :
    pySplitlines (ParticipantRunner.joinLinesNL ls) = ls := by
  induction ls with
  | nil => rfl
  | cons l ls ih =>
      cases ls with
      | nil =>
          have hne : l ≠ [] := by
            intro h'
            rw [h'] at hlast
            exact hlast rfl
          show pySplitlines (ParticipantRunner.joinLinesNL [l]) = [l]
          unfold ParticipantRunner.joinLinesNL
          exact pySplitlines_no_break (h l (List.mem_cons_self l [])) hne
      | cons l2 ls2 =>
          show pySplitlines (l ++ '\n' :: ParticipantRunner.joinLinesNL (l2 :: ls2)) = _
          rw [pySplitlines_append_nl (h l (List.mem_cons_self l _))]
          rw [ih (fun x hx => h x (List.mem_cons_of_mem l hx)) (by simpa using hlast)]

theorem firstSome_cons_some {α β : Type} {f : α → Option β} {x : α} {y : β}
    (xs : List α) (h : f x = some y) : firstSome f (x :: xs) = some y := by
  unfold firstSome
  rw [h]


theorem firstSome_cons_none {α β : Type} {f : α → Option β} {x : α}
    (xs : List α) (h : f x = none) : firstSome f (x :: xs) = firstSome f xs := by
  show (match f x with | some y => some y | none => firstSome f xs) = firstSome f xs
  rw [h]

theorem firstSome_eq_none {α β : Type} {f : α → Option β} {xs : List α}
    (h : ∀ x ∈ xs, f x = none) : firstSome f xs = none := by
  induction xs with
  | nil => rfl
  | cons x xs ih =>
      rw [firstSome_cons_none xs (h x (List.mem_cons_self x xs))]
      exact ih (fun y hy => h y (List.mem_cons_of_mem x hy))

theorem firstSome_append_of_none {α β : Type} {f : α → Option β} {xs ys : List α}
    (h : ∀ x ∈ xs, f x = none) : firstSome f (xs ++ ys) = firstSome f ys := by
  induction xs with
  | nil => rfl
  | cons x xs ih =>
      rw [List.cons_append,
        firstSome_cons_none (xs ++ ys) (h x (List.mem_cons_self x xs))]
      exact ih (fun y hy => h y (List.mem_cons_of_mem x hy))

theorem firstSome_eq_some_imp {α β : Type} {f : α → Option β} {xs : List α} {y : β}
    (h : firstSome f xs = some y) : ∃ x ∈ xs, f x = some y := by
  induction xs with
  | nil => exact absurd h (by simp [firstSome])
  | cons x xs ih =>
      cases hx : f x with
      | some z =>
          rw [firstSome_cons_some xs hx] at h
          exact ⟨x, List.mem_cons_self x xs, hx.trans h⟩
      | none =>
          rw [firstSome_cons_none xs hx] at h
          obtain ⟨w, hw, hfw⟩ := ih h
          exact ⟨w, List.mem_cons_of_mem x hw, hfw⟩

theorem firstSome_eq_some_of {α β : Type} {f : α → Option β} {xs : List α} {y : β}
    (hall : ∀ x ∈ xs, f x = none ∨ f x = some y)
    (hex : ∃ x ∈ xs, f x = some y) : firstSome f xs = some y := by
  induction xs with
  | nil => exact absurd hex (by simp)
  | cons x xs ih =>
      rcases hall x (List.mem_cons_self x xs) with hx | hx
      · rw [firstSome_cons_none xs hx]
        obtain ⟨w, hw, hfw⟩ := hex
        rcases List.mem_cons.mp hw with rfl | hw2
        · rw [hx] at hfw
          exact Option.noConfusion hfw
        · exact ih (fun z hz => hall z (List.mem_cons_of_mem x hz)) ⟨w, hw2, hfw⟩
      · rw [firstSome_cons_some xs hx]

theorem stripPrefixCI_eq_some_iff {pat l rest : List Char} :
    stripPrefixCI pat l = some rest ↔ ∃ pre, l = pre ++ rest ∧ lowerL pre = pat := by
  induction pat generalizing l with
  | nil =>
      simp only [stripPrefixCI, Option.some.injEq]
      constructor
      · rintro rfl
        exact ⟨[], rfl, rfl⟩
      · rintro ⟨pre, hl, hpre⟩
        have hpre2 : pre = [] := by simpa [lowerL] using hpre
        subst hpre2
        simpa using hl
  | cons p ps ih =>
      cases l with
      | nil =>
          simp only [stripPrefixCI]
          constructor
          · intro h
            exact absurd h (by simp)
          · rintro ⟨pre, hl, hpre⟩
            cases pre with
            | nil => simp [lowerL] at hpre
            | cons a as => simp at hl
      | cons c cs =>
          simp only [stripPrefixCI]
          by_cases hcp : Char.toLower c = p
          · rw [if_pos hcp, ih]
            constructor
            · rintro ⟨pre, rfl, hpre⟩
              refine ⟨c :: pre, rfl, ?_⟩
              simp only [lowerL, List.map_cons] at hpre ⊢
              rw [hcp, hpre]
            · rintro ⟨pre, hl, hpre⟩
              cases pre with
              | nil => simp [lowerL] at hpre
              | cons a as =>
                  rw [List.cons_append] at hl
                  obtain ⟨rfl, hcs⟩ := List.cons.inj hl
                  simp only [lowerL, List.map_cons, List.cons.injEq] at hpre
                  exact ⟨as, hcs, hpre.2⟩
          · rw [if_neg hcp]
            constructor
            · intro h
              exact absurd h (by simp)
            · rintro ⟨pre, hl, hpre⟩
              cases pre with
              | nil => simp [lowerL] at hpre
              | cons a as =>
                  rw [List.cons_append] at hl
                  obtain ⟨rfl, -⟩ := List.cons.inj hl
                  simp only [lowerL, List.map_cons, List.cons.injEq] at hpre
                  exact absurd hpre.1 hcp

theorem dropWhile_ws_append {w l : List Char} (hw : ∀ c ∈ w, pyIsSpace c = true)
    (c0 : Char) (h0 : l.head? = some c0) (hc0 : pyIsSpace c0 = false) :
    (w ++ l).dropWhile pyIsSpace = l := by
  rw [List.dropWhile_append]
  have h1 : w.dropWhile pyIsSpace = [] := List.dropWhile_eq_nil_iff.mpr hw
  rw [h1]
  simp only [List.isEmpty_nil, if_true]
  cases l with
  | nil => simp at h0
  | cons a t =>
      simp only [List.head?_cons, Option.some.injEq] at h0
      subst h0
      rw [List.dropWhile_cons, hc0]
      simp

theorem head_not_ws_of_lower {kwp kw : List Char} (h : lowerL kwp = kw)
    {k : Char} (hk : kw.head? = some k) (hks : pyIsSpace k = false) :
    ∃ c0, kwp.head? = some c0 ∧ pyIsSpace c0 = false := by
  cases kwp with
  | nil =>
      rw [show lowerL [] = [] from rfl] at h
      rw [← h] at hk
      simp at hk
  | cons c cs =>
      refine ⟨c, rfl, ?_⟩
      have : k = Char.toLower c := by
        rw [← h] at hk
        simpa [lowerL] using hk.symm
      rw [this] at hks
      rwa [pyIsSpace_toLower] at hks

theorem tryDirectiveToken_eq_some_imp {t l5 tok : List Char}
    (h : tryDirectiveToken t l5 = some tok) :
    t = tok ∧ ∃ tkp rest, l5 = tkp ++ rest ∧ lowerL tkp = t ∧
      (∀ c ∈ rest, pyIsSpace c = true) := by
  unfold tryDirectiveToken at h
  split at h
  · exact absurd h (by simp)
  · next rest heq =>
      split at h
      · next hws =>
          obtain ⟨tkp, hl5, hlow⟩ := stripPrefixCI_eq_some_iff.mp heq
          exact ⟨by injection h, tkp, rest, hl5, hlow,
            fun c hc => List.all_eq_true.mp hws c hc⟩
      · exact absurd h (by simp)

theorem tryDirectiveToken_of_decomp {t tkp w4 : List Char}
    (hlow : lowerL tkp = t) (hw4 : ∀ c ∈ w4, pyIsSpace c = true) :
    tryDirectiveToken t (tkp ++ w4) = some t := by
  unfold tryDirectiveToken
  rw [stripPrefixCI_eq_some_iff.mpr ⟨tkp, rfl, hlow⟩]
  show (if w4.all pyIsSpace = true then some t else none) = some t
  rw [if_pos (List.all_eq_true.mpr hw4)]

/-- Completeness of the deterministic matcher: a successful match yields the
spec-side decomposition. -/
theorem directiveToken_spec_complete {kw : List Char} {toks : List (List Char)}
    {line tok : List Char}
    (h : directiveToken kw toks line = some tok) :
    IsDirectiveLineSpec kw toks line tok := by
  unfold directiveToken at h
  split at h
  · exact absurd h (by simp)
  · next l2 heq1 =>
      split at h
      · next l4 heq2 =>
          obtain ⟨t, ht, htry⟩ := firstSome_eq_some_imp h
          obtain ⟨rfl, tkp, rest, hl5, hlowt, hrest⟩ := tryDirectiveToken_eq_some_imp htry
          obtain ⟨kwp, hl1, hlowk⟩ := stripPrefixCI_eq_some_iff.mp heq1
          have hline : line = (line.takeWhile pyIsSpace)
              ++ (kwp ++ ((l2.takeWhile pyIsSpace)
                ++ (':' :: ((l4.takeWhile pyIsSpace) ++ (tkp ++ rest))))) := by
            conv_lhs => rw [← List.takeWhile_append_dropWhile (p := pyIsSpace) (l := line)]
            rw [hl1]
            congr 1
            congr 1
            conv_lhs => rw [← List.takeWhile_append_dropWhile (p := pyIsSpace) (l := l2)]
            rw [heq2]
            congr 1
            congr 1
            conv_lhs => rw [← List.takeWhile_append_dropWhile (p := pyIsSpace) (l := l4)]
            rw [hl5]
          refine ⟨line.takeWhile pyIsSpace, l2.takeWhile pyIsSpace,
            l4.takeWhile pyIsSpace, rest, kwp, tkp, ?_, ?_, ?_, ?_, ?_, hlowk, hlowt, ht⟩
          · conv_lhs => rw [hline]
            simp [List.append_assoc]
          · exact fun c hc => List.mem_takeWhile_imp hc
          · exact fun c hc => List.mem_takeWhile_imp hc
          · exact fun c hc => List.mem_takeWhile_imp hc
          · exact hrest
      · exact absurd h (by simp)

/-- Soundness of the deterministic matcher: the spec-side decomposition is
matched, and (for a prefix-free token vocabulary) the result is exactly the
decomposition's token. -/
theorem directiveToken_spec_sound {kw : List Char} {toks : List (List Char)}
    {line tok : List Char} {k : Char}
    (hkw : kw.head? = some k) (hks : pyIsSpace k = false)
    (hfree : ∀ t1 ∈ toks, ∀ t2 ∈ toks, t1 <+: t2 → t1 = t2)
    (htoks : ∀ t ∈ toks, ∃ c, t.head? = some c ∧ pyIsSpace c = false)
    (h : IsDirectiveLineSpec kw toks line tok) :
    directiveToken kw toks line = some tok := by
  obtain ⟨w1, w2, w3, w4, kwp, tkp, rfl, hw1, hw2, hw3, hw4, hlowk, hlowt, htok⟩ := h
  obtain ⟨c0, hc0, hc0ws⟩ := head_not_ws_of_lower hlowk hkw hks
  obtain ⟨kt, hkt, hktws⟩ := htoks tok htok
  obtain ⟨ct, hct, hctws⟩ := head_not_ws_of_lower hlowt hkt hktws
  unfold directiveToken
  have hstep1 : ((w1 ++ (kwp ++ (w2 ++ ':' :: (w3 ++ (tkp ++ w4)))))).dropWhile pyIsSpace
      = kwp ++ (w2 ++ ':' :: (w3 ++ (tkp ++ w4))) := by
    apply dropWhile_ws_append hw1 c0 _ hc0ws
    cases kwp with
    | nil => simp at hc0
    | cons x xs => simpa using hc0
  rw [show w1 ++ kwp ++ w2 ++ ':' :: (w3 ++ tkp ++ w4)
      = w1 ++ (kwp ++ (w2 ++ ':' :: (w3 ++ (tkp ++ w4)))) by simp [List.append_assoc]]
  rw [hstep1]
  rw [stripPrefixCI_eq_some_iff.mpr ⟨kwp, rfl, hlowk⟩]
  show (match (w2 ++ ':' :: (w3 ++ (tkp ++ w4))).dropWhile pyIsSpace with
    | ':' :: l4 => firstSome (fun tok => tryDirectiveToken tok (l4.dropWhile pyIsSpace)) toks
    | _ => none) = some tok
  have hstep2 : (w2 ++ ':' :: (w3 ++ (tkp ++ w4))).dropWhile pyIsSpace
      = ':' :: (w3 ++ (tkp ++ w4)) :=
    dropWhile_ws_append hw2 ':' rfl (by decide)
  rw [hstep2]
  show firstSome (fun t => tryDirectiveToken t ((w3 ++ (tkp ++ w4)).dropWhile pyIsSpace)) toks
    = some tok
  have hstep3 : (w3 ++ (tkp ++ w4)).dropWhile pyIsSpace = tkp ++ w4 := by
    apply dropWhile_ws_append hw3 ct _ hctws
    cases tkp with
    | nil => simp at hct
    | cons x xs => simpa using hct
  rw [hstep3]
  apply firstSome_eq_some_of
  · intro t ht2
    cases htry : tryDirectiveToken t (tkp ++ w4) with
    | none => exact Or.inl rfl
    | some t2 =>
        refine Or.inr ?_
        obtain ⟨rfl, pre, rest, hsplit, hlowp, hrest⟩ := tryDirectiveToken_eq_some_imp htry
        have hpre1 : pre <+: tkp ++ w4 := ⟨rest, hsplit.symm⟩
        have hpre2 : tkp <+: tkp ++ w4 := ⟨w4, rfl⟩
        rcases List.prefix_or_prefix_of_prefix hpre1 hpre2 with hp | hp
        · have hptok : t <+: tok := by
            rw [← hlowp, ← hlowt]
            exact List.IsPrefix.map Char.toLower hp
          rw [hfree t ht2 tok htok hptok]
        · have hp2 : tok <+: t := by
            rw [← hlowp, ← hlowt]
            exact List.IsPrefix.map Char.toLower hp
          rw [hfree tok htok t ht2 hp2]
  · exact ⟨tok, htok, tryDirectiveToken_of_decomp hlowt hw4⟩


/-- C1: `evaluate_medium_gate` returns the outcome of the first matching rule,
in the order tests → lint → blocker → unknown → empty verdict list → passed. -/
theorem claim_C1_gate_first_matching_rule
    (tests_ok lint_ok : Bool) (vs : List ReviewVerdict) :
    (tests_ok = false →
      evaluate_medium_gate tests_ok lint_ok vs = ⟨false, "tests_failed"⟩) ∧
    (tests_ok = true → lint_ok = false →
      evaluate_medium_gate tests_ok lint_ok vs = ⟨false, "lint_failed"⟩) ∧
    (tests_ok = true → lint_ok = true → ReviewVerdict.blocker ∈ vs →
      evaluate_medium_gate tests_ok lint_ok vs = ⟨false, "review_blocker"⟩) ∧
    (tests_ok = true → lint_ok = true → ReviewVerdict.blocker ∉ vs →
      ReviewVerdict.unknown ∈ vs →
      evaluate_medium_gate tests_ok lint_ok vs = ⟨false, "review_unknown"⟩) ∧
    (tests_ok = true → lint_ok = true → vs = [] →
      evaluate_medium_gate tests_ok lint_ok vs = ⟨false, "review_missing"⟩) ∧
    (tests_ok = true → lint_ok = true → ReviewVerdict.blocker ∉ vs →
      ReviewVerdict.unknown ∉ vs → vs ≠ [] →
      evaluate_medium_gate tests_ok lint_ok vs = ⟨true, "passed"⟩) := by
  have hb : ∀ v : ReviewVerdict, (v = ReviewVerdict.blocker) = (ReviewVerdict.blocker = v) := by
    intro v; exact propext ⟨Eq.symm, Eq.symm⟩
  refine ⟨?_, ?_, ?_, ?_, ?_, ?_⟩ <;> intros h1 <;>
    try subst h1
  · simp [evaluate_medium_gate]
  all_goals intros h2 <;> try subst h2
  · simp [evaluate_medium_gate]
  · intro hmem
    simp only [evaluate_medium_gate, Bool.not_true, Bool.false_eq_true, if_false,
      List.any_eq_true, decide_eq_true_eq]
    rw [if_pos ⟨ReviewVerdict.blocker, hmem, rfl⟩]
  · intro hnb hu
    simp only [evaluate_medium_gate, Bool.not_true, Bool.false_eq_true, if_false,
      List.any_eq_true, decide_eq_true_eq]
    rw [if_neg, if_pos ⟨ReviewVerdict.unknown, hu, rfl⟩]
    rintro ⟨v, hv, rfl⟩
    exact hnb hv
  · intro hnil
    subst hnil
    simp [evaluate_medium_gate]
  · intro hnb hu hne
    simp only [evaluate_medium_gate, Bool.not_true, Bool.false_eq_true, if_false,
      List.any_eq_true, decide_eq_true_eq]
    rw [if_neg, if_neg, if_neg]
    · simpa [List.isEmpty_iff] using hne
    · rintro ⟨v, hv, rfl⟩
      exact hu hv
    · rintro ⟨v, hv, rfl⟩
      exact hnb hv

/-- C1 witness: the gate evaluated at concrete inputs. -/
theorem claim_C1_gate_first_matching_rule_witness :
    evaluate_medium_gate true true [ReviewVerdict.no_blocker, ReviewVerdict.unknown]
      = ⟨false, "review_unknown"⟩ :=
  (claim_C1_gate_first_matching_rule true true
    [ReviewVerdict.no_blocker, ReviewVerdict.unknown]).2.2.2.1
    rfl rfl (by decide) (by decide)

/-- C2: `can_transition` admits exactly the pairs of the spec's transition
table; `passed` and `canceled` are terminal. -/
theorem claim_C2_transition_table (t : TaskStatus) :
    (can_transition .queued t = true ↔ t = .running ∨ t = .canceled) ∧
    (can_transition .running t = true ↔
      t = .waiting_manual ∨ t = .passed ∨ t = .failed_gate
        ∨ t = .failed_system ∨ t = .canceled) ∧
    (can_transition .waiting_manual t = true ↔ t = .running ∨ t = .canceled) ∧
    (can_transition .failed_gate t = true ↔ t = .running ∨ t = .canceled) ∧
    (can_transition .failed_system t = true ↔ t = .running ∨ t = .canceled) ∧
    can_transition .passed t = false ∧
    can_transition .canceled t = false := by
  cases t <;> decide

/-- C9: `should_switch_to_fallback` is true iff the normalized status is
`failed_system` and the lowercased reason mentions `claude` or
`command failed`; `should_switch_back_to_primary` is true iff the normalized
status is `failed_system` and the lowercased reason mentions `provider=codex`
together with a timeout / not-found / provider-limit marker; a `None` or
empty reason never triggers either switch. -/
theorem claim_C9_fallback_switch_predicates (status : String) (reason : Option String) :
    (should_switch_to_fallback status reason = true ↔
      (stripL (lowerL status.data) = "failed_system".data ∧
        ("claude".data <:+: lowerL ((reason.getD "").data) ∨
         "command failed".data <:+: lowerL ((reason.getD "").data)))) ∧
    (should_switch_back_to_primary status reason = true ↔
      (stripL (lowerL status.data) = "failed_system".data ∧
        "provider=codex".data <:+: lowerL ((reason.getD "").data) ∧
        ("command_timeout".data <:+: lowerL ((reason.getD "").data) ∨
         "command_not_found".data <:+: lowerL ((reason.getD "").data) ∨
         "provider_limit".data <:+: lowerL ((reason.getD "").data)))) ∧
    should_switch_to_fallback status none = false ∧
    should_switch_back_to_primary status none = false ∧
    should_switch_to_fallback status (some "") = false ∧
    should_switch_back_to_primary status (some "") = false := by
  have hclaude := pyContains_stripLower (reason.getD "") "claude"
    'c' 'e' rfl (by decide) (by decide) (by decide)
  have hcmdfail := pyContains_stripLower (reason.getD "") "command failed"
    'c' 'd' rfl (by decide) (by decide) (by decide)
  have hcodex := pyContains_stripLower (reason.getD "") "provider=codex"
    'p' 'x' rfl (by decide) (by decide) (by decide)
  have hcto := pyContains_stripLower (reason.getD "") "command_timeout"
    'c' 't' rfl (by decide) (by decide) (by decide)
  have hcnf := pyContains_stripLower (reason.getD "") "command_not_found"
    'c' 'd' rfl (by decide) (by decide) (by decide)
  have hpl := pyContains_stripLower (reason.getD "") "provider_limit"
    'p' 't' rfl (by decide) (by decide) (by decide)
  refine ⟨?_, ?_, ?_, ?_, ?_, ?_⟩
  · unfold should_switch_to_fallback
    by_cases hs : pyLower (pyStrip status) = "failed_system"
    · rw [if_neg (fun h => h hs)]
      simp only [Bool.or_eq_true, hclaude, hcmdfail]
      simp [(status_norm_iff status "failed_system").mp hs]
    · rw [if_pos hs]
      simp only [Bool.false_eq_true, false_iff]
      rintro ⟨h1, -⟩
      exact hs ((status_norm_iff status "failed_system").mpr h1)
  · unfold should_switch_back_to_primary
    by_cases hs : pyLower (pyStrip status) = "failed_system"
    · rw [if_neg (fun h => h hs)]
      constructor
      · intro h
        split at h
        next hcond =>
          rw [Bool.and_eq_true, Bool.or_eq_true, Bool.or_eq_true] at hcond
          obtain ⟨ha, hb⟩ := hcond
          refine ⟨(status_norm_iff status "failed_system").mp hs, hcodex.mp ha, ?_⟩
          rcases hb with (hb | hb) | hb
          · exact Or.inl (hcto.mp hb)
          · exact Or.inr (Or.inl (hcnf.mp hb))
          · exact Or.inr (Or.inr (hpl.mp hb))
        next hcond => exact absurd h (by simp)
      · rintro ⟨-, h1, h2⟩
        have hcond : (pyContains (pyLower (pyStrip (reason.getD ""))) "provider=codex"
            && (pyContains (pyLower (pyStrip (reason.getD ""))) "command_timeout"
                  || pyContains (pyLower (pyStrip (reason.getD ""))) "command_not_found"
                  || pyContains (pyLower (pyStrip (reason.getD ""))) "provider_limit")) = true := by
          rw [Bool.and_eq_true, Bool.or_eq_true, Bool.or_eq_true]
          refine ⟨hcodex.mpr h1, ?_⟩
          rcases h2 with h2 | h2 | h2
          · exact Or.inl (Or.inl (hcto.mpr h2))
          · exact Or.inl (Or.inr (hcnf.mpr h2))
          · exact Or.inr (hpl.mpr h2)
        rw [hcond]
        simp
    · rw [if_pos hs]
      simp only [Bool.false_eq_true, false_iff]
      rintro ⟨h1, -⟩
      exact hs ((status_norm_iff status "failed_system").mpr h1)
  · unfold should_switch_to_fallback
    by_cases hs : pyLower (pyStrip status) = "failed_system"
    · rw [if_neg (fun h => h hs)]
      decide
    · rw [if_pos hs]
  · unfold should_switch_back_to_primary
    by_cases hs : pyLower (pyStrip status) = "failed_system"
    · rw [if_neg (fun h => h hs)]
      decide
    · rw [if_pos hs]
  · unfold should_switch_to_fallback
    by_cases hs : pyLower (pyStrip status) = "failed_system"
    · rw [if_neg (fun h => h hs)]
      decide
    · rw [if_pos hs]
  · unfold should_switch_back_to_primary
    by_cases hs : pyLower (pyStrip status) = "failed_system"
    · rw [if_neg (fun h => h hs)]
      decide
    · rw [if_pos hs]

/-- C9 witness: the two predicates evaluated at concrete inputs through the
theorem. -/
theorem claim_C9_fallback_switch_predicates_witness :
    should_switch_to_fallback "failed_system" (some "Claude command failed") = true ∧
    should_switch_back_to_primary "failed_system"
      (some "workflow_error: provider_limit provider=codex command=codex exec") = true :=
  ⟨((claim_C9_fallback_switch_predicates "failed_system"
      (some "Claude command failed")).1).mpr (by decide),
   ((claim_C9_fallback_switch_predicates "failed_system"
      (some "workflow_error: provider_limit provider=codex command=codex exec")).2.1).mpr
      (by decide)⟩

/-- C10: the builtin providers remain supported after any sequence of registry
calls; `register_provider` raises exactly on empty or `#`-containing
normalized names, and registering a builtin is a no-op. -/
theorem claim_C10_builtin_providers_always_supported :
    (∀ (calls : List ProviderCall) (extras₀ : List String) (b : String),
      b ∈ BUILTIN_PROVIDERS →
        b ∈ get_supported_providers (apply_provider_calls calls extras₀)) ∧
    (∀ (extras : List String) (p : String),
      (∃ e, register_provider extras p = .error e) ↔
        (normalize_provider_name p = "" ∨
          pyContains (normalize_provider_name p) "#" = true)) ∧
    (∀ (extras : List String) (p : String),
      normalize_provider_name p ∈ BUILTIN_PROVIDERS →
        register_provider extras p = .ok extras) := by
  refine ⟨?_, ?_, ?_⟩
  · intro calls extras₀ b hb
    unfold get_supported_providers
    exact List.mem_append.mpr (Or.inl hb)
  · intro extras p
    unfold register_provider
    by_cases h1 : normalize_provider_name p = ""
    · simp [h1]
    · rw [if_neg h1]
      by_cases h2 : pyContains (normalize_provider_name p) "#" = true
      · simp [h1, h2]
      · rw [if_neg h2]
        constructor
        · rintro ⟨e, he⟩
          split at he
          · exact Except.noConfusion he
          · split at he
            · exact Except.noConfusion he
            · exact Except.noConfusion he
        · rintro (h | h)
          · exact absurd h h1
          · exact absurd h h2
  · intro extras p hb
    unfold register_provider
    have h1 : ¬ normalize_provider_name p = "" := by
      intro h
      rw [h] at hb
      exact absurd hb (by decide)
    have h2 : ¬ pyContains (normalize_provider_name p) "#" = true := by
      intro h
      simp only [BUILTIN_PROVIDERS, List.mem_cons, List.mem_singleton,
        List.not_mem_nil, or_false] at hb
      rcases hb with hb | hb | hb <;> rw [hb] at h <;> exact absurd h (by decide)
    rw [if_neg h1, if_neg h2, if_pos hb]

/-- C10 witness: the registry evaluated at concrete inputs through the
theorem. -/
theorem claim_C10_builtin_providers_always_supported_witness :
    "claude" ∈ get_supported_providers
      (apply_provider_calls
        [ProviderCall.setExtra (some ["x"]), ProviderCall.register "y"] []) ∧
    register_provider ["x"] " Codex " = .ok ["x"] :=
  ⟨claim_C10_builtin_providers_always_supported.1
      [ProviderCall.setExtra (some ["x"]), ProviderCall.register "y"] [] "claude" (by decide),
   claim_C10_builtin_providers_always_supported.2.2 ["x"] " Codex " (by decide)⟩

/-- C4 counterexample: the claim's junk-line invariance fails for prepended
lines that are themselves directive lines — prepending `VERDICT: UNKNOWN`
changes the parsed verdict of `VERDICT: BLOCKER`. -/
theorem claim_C4_parse_directives_counterexample :
    parse_verdict "VERDICT: BLOCKER" = "blocker" ∧
    parse_verdict "VERDICT: UNKNOWN\nVERDICT: BLOCKER" = "unknown" ∧
    ("unknown" : String) ≠ "blocker" := by
  refine ⟨by decide, by decide, by decide⟩

/-- C4 (amended): a line matches `_VERDICT_RE` / `_NEXT_RE` exactly when, up
to whitespace, it reads `KEYWORD: TOKEN` case-insensitively (returning the
lowercased token); `parse_verdict` / `parse_next_action` return the token of
the first matching line — so lines appended after it, and non-directive lines
prepended before it, never change the result — and default to `'unknown'` /
`None` when no line matches. -/
theorem claim_C4_parse_directives :
    (∀ line tok, verdictLineToken line = some tok ↔
      IsDirectiveLineSpec "verdict".data
        ["no_blocker".data, "blocker".data, "unknown".data] line tok) ∧
    (∀ line tok, nextActionLineToken line = some tok ↔
      IsDirectiveLineSpec "next_action".data
        ["retry".data, "pass".data, "stop".data] line tok) ∧
    (∀ (pre post : List (List Char)) (line tok : List Char),
      (∀ l ∈ pre ++ line :: post, ∀ c ∈ l, isPyLineBreak c = false) →
      (pre ++ line :: post).getLast? ≠ some [] →
      (∀ l ∈ pre, verdictLineToken l = none) →
      verdictLineToken line = some tok →
      parse_verdict ⟨ParticipantRunner.joinLinesNL (pre ++ line :: post)⟩ = ⟨tok⟩) ∧
    (∀ (pre post : List (List Char)) (line tok : List Char),
      (∀ l ∈ pre ++ line :: post, ∀ c ∈ l, isPyLineBreak c = false) →
      (pre ++ line :: post).getLast? ≠ some [] →
      (∀ l ∈ pre, nextActionLineToken l = none) →
      nextActionLineToken line = some tok →
      parse_next_action ⟨ParticipantRunner.joinLinesNL (pre ++ line :: post)⟩
        = some ⟨tok⟩) ∧
    (∀ output : String,
      (∀ l ∈ pySplitlines output.data, verdictLineToken l = none) →
      parse_verdict output = "unknown") ∧
    (∀ output : String,
      (∀ l ∈ pySplitlines output.data, nextActionLineToken l = none) →
      parse_next_action output = none) := by
  refine ⟨?_, ?_, ?_, ?_, ?_, ?_⟩
  · intro line tok
    constructor
    · exact fun h => directiveToken_spec_complete h
    · refine fun h => directiveToken_spec_sound rfl (by decide) (by decide) ?_ h
      intro t ht
      fin_cases ht
      · exact ⟨'n', rfl, by decide⟩
      · exact ⟨'b', rfl, by decide⟩
      · exact ⟨'u', rfl, by decide⟩
  · intro line tok
    constructor
    · exact fun h => directiveToken_spec_complete h
    · refine fun h => directiveToken_spec_sound rfl (by decide) (by decide) ?_ h
      intro t ht
      fin_cases ht
      · exact ⟨'r', rfl, by decide⟩
      · exact ⟨'p', rfl, by decide⟩
      · exact ⟨'s', rfl, by decide⟩
  · intro pre post line tok hbr hlast hpre hline
    unfold parse_verdict
    rw [show (⟨ParticipantRunner.joinLinesNL (pre ++ line :: post)⟩ : String).data
        = ParticipantRunner.joinLinesNL (pre ++ line :: post) from rfl]
    rw [pySplitlines_join hbr hlast, firstSome_append_of_none hpre,
      firstSome_cons_some post hline]
  · intro pre post line tok hbr hlast hpre hline
    unfold parse_next_action
    rw [show (⟨ParticipantRunner.joinLinesNL (pre ++ line :: post)⟩ : String).data
        = ParticipantRunner.joinLinesNL (pre ++ line :: post) from rfl]
    rw [pySplitlines_join hbr hlast, firstSome_append_of_none hpre,
      firstSome_cons_some post hline]
    rfl
  · intro output h
    unfold parse_verdict
    rw [firstSome_eq_none h]
  · intro output h
    unfold parse_next_action
    rw [firstSome_eq_none h]
    rfl

/-- C4 witness: the parsers evaluated through the theorem at concrete
multi-line outputs. -/
theorem claim_C4_parse_directives_witness :
    parse_verdict
      ⟨ParticipantRunner.joinLinesNL
        ["noise".data, " verdict :  No_Blocker ".data, "after".data]⟩
      = "no_blocker" ∧
    parse_next_action
      ⟨ParticipantRunner.joinLinesNL
        ["NEXT_ACTION: RETRY".data, "x".data]⟩ = some "retry" ∧
    parse_verdict "no directive here" = "unknown" :=
  ⟨claim_C4_parse_directives.2.2.1 ["noise".data] ["after".data]
      " verdict :  No_Blocker ".data "no_blocker".data
      (by decide) (by decide) (by decide) (by decide),
   claim_C4_parse_directives.2.2.2.1 [] ["x".data]
      "NEXT_ACTION: RETRY".data "retry".data
      (by decide) (by decide) (by decide) (by decide),
   claim_C4_parse_directives.2.2.2.2.1 "no directive here" (by decide)⟩


/-! ### Lemmas on the runner retry loop -/

theorem runAttemptLoop_succ (behavior : Nat → ParticipantRunner.AttemptOutcome)
    (ts : Nat) (e1 e2 : String) (n idx : Nat) (prompt : String) :
    ParticipantRunner.runAttemptLoop behavior ts e1 e2 (n + 1) idx prompt =
      match behavior idx with
      | .notFound => ([(ts, prompt)], .error e1)
      | .completed out err rc => ([(ts, prompt)], .ok (out, err, rc))
      | .timeout =>
        if n = 0 then ([(ts, prompt)], .error e2)
        else
          ((ts, prompt) :: (ParticipantRunner.runAttemptLoop behavior ts e1 e2
              n (idx + 1) (ParticipantRunner._clip_prompt_for_retry prompt)).1,
            (ParticipantRunner.runAttemptLoop behavior ts e1 e2
              n (idx + 1) (ParticipantRunner._clip_prompt_for_retry prompt)).2) := rfl

theorem runAttemptLoop_length (behavior : Nat → ParticipantRunner.AttemptOutcome)
    (ts : Nat) (e1 e2 : String) :
    ∀ (n idx : Nat) (prompt : String),
      ((ParticipantRunner.runAttemptLoop behavior ts e1 e2 n idx prompt).1).length ≤ n := by
  intro n
  induction n with
  | zero =>
      intro idx prompt
      exact Nat.le_refl 0
  | succ m ih =>
      intro idx prompt
      rw [runAttemptLoop_succ]
      cases behavior idx with
      | notFound => simp
      | completed o e rc => simp
      | timeout =>
          by_cases hm : m = 0
          · rw [if_pos hm]
            simp
          · rw [if_neg hm]
            simp only [List.length_cons]
            exact Nat.succ_le_succ (ih (idx + 1) _)

theorem runAttemptLoop_fst_mem (behavior : Nat → ParticipantRunner.AttemptOutcome)
    (ts : Nat) (e1 e2 : String) :
    ∀ (n idx : Nat) (prompt : String) (inv : Nat × String),
      inv ∈ (ParticipantRunner.runAttemptLoop behavior ts e1 e2 n idx prompt).1 →
      inv.1 = ts := by
  intro n
  induction n with
  | zero =>
      intro idx prompt inv hmem
      exact absurd hmem (by simp [ParticipantRunner.runAttemptLoop])
  | succ m ih =>
      intro idx prompt inv hmem
      rw [runAttemptLoop_succ] at hmem
      cases hb : behavior idx with
      | notFound =>
          rw [hb] at hmem
          simp at hmem
          rw [hmem]
      | completed o e rc =>
          rw [hb] at hmem
          simp at hmem
          rw [hmem]
      | timeout =>
          rw [hb] at hmem
          by_cases hm : m = 0
          · rw [if_pos hm] at hmem
            simp at hmem
            rw [hmem]
          · rw [if_neg hm] at hmem
            rcases List.mem_cons.mp hmem with rfl | hmem2
            · rfl
            · exact ih (idx + 1) _ inv hmem2

theorem runAttemptLoop_all_timeout (ts : Nat) (e1 e2 : String) :
    ∀ (n idx : Nat) (prompt : String),
      ParticipantRunner.runAttemptLoop (fun _ => .timeout) ts e1 e2 n idx prompt
        = ((List.range n).map
            (fun i => (ts, ParticipantRunner._clip_prompt_for_retry^[i] prompt)),
          .error e2) := by
  intro n
  induction n with
  | zero =>
      intro idx prompt
      rfl
  | succ m ih =>
      intro idx prompt
      rw [runAttemptLoop_succ]
      show (if m = 0 then (([(ts, prompt)], Except.error e2) :
          List (Nat × String) × Except String (String × String × Int))
        else ((ts, prompt) :: (ParticipantRunner.runAttemptLoop (fun _ => .timeout) ts e1 e2
              m (idx + 1) (ParticipantRunner._clip_prompt_for_retry prompt)).1,
          (ParticipantRunner.runAttemptLoop (fun _ => .timeout) ts e1 e2
              m (idx + 1) (ParticipantRunner._clip_prompt_for_retry prompt)).2)) = _
      by_cases hm : m = 0
      · subst hm
        rw [if_pos rfl]
        rw [show List.range 1 = [0] from rfl]
        simp
      · rw [if_neg hm]
        rw [ih (idx + 1) (ParticipantRunner._clip_prompt_for_retry prompt)]
        have hlist : (List.range (m + 1)).map
              (fun i => (ts, ParticipantRunner._clip_prompt_for_retry^[i] prompt))
            = (ts, prompt) :: (List.range m).map
              (fun i => (ts, ParticipantRunner._clip_prompt_for_retry^[i]
                (ParticipantRunner._clip_prompt_for_retry prompt))) := by
          rw [List.range_succ_eq_map]
          simp only [List.map_cons, List.map_map, Function.iterate_zero_apply]
          congr 1
        rw [hlist]

/-- C3: every string containing one of the nine limit patterns
(case-insensitively) is classified as a provider-limit output; empty or
whitespace-only strings are not; and when `run` completes with such an
output it raises `provider_limit provider=<p> command=<rendered argv>`. -/
theorem claim_C3_provider_limit_classifier :
    (∀ (s pat : String), pat ∈ _LIMIT_PATTERNS →
      pat.data <:+: lowerL s.data →
      ParticipantRunner._is_provider_limit_output s = true) ∧
    (∀ s : String, (∀ c ∈ s.data, pyIsSpace c = true) →
      ParticipantRunner._is_provider_limit_output s = false) ∧
    (∀ (provider cmd : String) (tr : Nat) (prompt : String) (ts : Nat)
        (behavior : Nat → ParticipantRunner.AttemptOutcome) (out err : String) (rc : Int),
      behavior 0 = .completed out err rc →
      ParticipantRunner._is_provider_limit_output
        (ParticipantRunner.mergedOutput out err rc) = true →
      (ParticipantRunner.run provider cmd tr prompt ts behavior).result
        = .error ("provider_limit provider=" ++ provider ++ " command=" ++ cmd)) := by
  have key : ∀ (s pat : String), ∀ (c1 c2 : Char),
      pat.data.head? = some c1 → pyIsSpace c1 = false →
      pat.data.getLast? = some c2 → pyIsSpace c2 = false →
      pat ∈ _LIMIT_PATTERNS → pat.data <:+: lowerL s.data →
      ParticipantRunner._is_provider_limit_output s = true := by
    intro s pat c1 c2 h1 hc1 h2 hc2 hmem h
    have htext : pat.data <:+: ParticipantRunner.limitText s := by
      show pat.data <:+: lowerL (stripL s.data)
      rw [← lowerL_stripL]
      exact (infix_stripL_iff (lowerL s.data) h1 hc1 h2 hc2).mpr h
    have hne : (ParticipantRunner.limitText s).isEmpty = false := by
      rw [Bool.eq_false_iff]
      intro hemp
      rw [List.isEmpty_iff] at hemp
      rw [hemp] at htext
      have hnil := List.eq_nil_of_infix_nil htext
      rw [hnil] at h1
      exact absurd h1 (by simp)
    unfold ParticipantRunner._is_provider_limit_output
    rw [hne]
    simp only [Bool.false_eq_true, if_false]
    rw [List.any_eq_true]
    exact ⟨pat, hmem, (containsSub_iff _ _).mpr htext⟩
  refine ⟨?_, ?_, ?_⟩
  · intro s pat hmem hinf
    fin_cases hmem
    · exact key s "hit your limit" 'h' 't' rfl (by decide) (by decide) (by decide) (by decide) hinf
    · exact key s "usage limit" 'u' 't' rfl (by decide) (by decide) (by decide) (by decide) hinf
    · exact key s "rate limit" 'r' 't' rfl (by decide) (by decide) (by decide) (by decide) hinf
    · exact key s "ratelimitexceeded" 'r' 'd' rfl (by decide) (by decide) (by decide) (by decide) hinf
    · exact key s "resource_exhausted" 'r' 'd' rfl (by decide) (by decide) (by decide) (by decide) hinf
    · exact key s "model_capacity_exhausted" 'm' 'd' rfl (by decide) (by decide) (by decide) (by decide) hinf
    · exact key s "no capacity available" 'n' 'e' rfl (by decide) (by decide) (by decide) (by decide) hinf
    · exact key s "quota exceeded" 'q' 'd' rfl (by decide) (by decide) (by decide) (by decide) hinf
    · exact key s "insufficient_quota" 'i' 'a' rfl (by decide) (by decide) (by decide) (by decide) hinf
  · intro s hws
    have hstrip : stripL s.data = [] := by
      unfold stripL lstripL rstripL
      rw [List.dropWhile_eq_nil_iff.mpr hws]
      rfl
    unfold ParticipantRunner._is_provider_limit_output ParticipantRunner.limitText
    rw [hstrip]
    rfl
  · intro provider cmd tr prompt ts behavior out err rc hb hl
    simp only [ParticipantRunner.run]
    rw [runAttemptLoop_succ, hb]
    simp only [ParticipantRunner.provider_limit_msg, hl, if_true]

/-- C3 witness: the classifier and the runner evaluated at concrete inputs
through the theorem. -/
theorem claim_C3_provider_limit_classifier_witness :
    ParticipantRunner._is_provider_limit_output "  Rate Limit exceeded " = true ∧
    ParticipantRunner._is_provider_limit_output "   " = false ∧
    (ParticipantRunner.run "claude" "claude -p" 1 "p" 10
        (fun _ => .completed "You hit your limit" "" 0)).result
      = .error ("provider_limit provider=" ++ "claude" ++ " command=" ++ "claude -p") :=
  ⟨claim_C3_provider_limit_classifier.1 "  Rate Limit exceeded " "rate limit"
      (by decide) (by decide),
   claim_C3_provider_limit_classifier.2.1 "   " (by decide),
   claim_C3_provider_limit_classifier.2.2 "claude" "claude -p" 1 "p" 10
      (fun _ => .completed "You hit your limit" "" 0) "You hit your limit" "" 0
      rfl (by decide)⟩


/-- C6 counterexample: with `timeout_seconds = 10` and one retry, the first
attempt times out after consuming the whole 10-second budget, yet the second
attempt is invoked with the full `timeout = 10` again — not with the
remaining total budget `10 - 10 = 0`. -/
theorem claim_C6_runner_retry_counterexample :
    (ParticipantRunner.run "claude" "claude -p" 1 "p" 10
        (fun _ => ParticipantRunner.AttemptOutcome.timeout)).invocations
      = [(10, "p"), (10, "p")] ∧
    (10 : Nat) - 10 = 0 ∧ ¬ ((10 : Nat) = 0) := by
  refine ⟨by decide, rfl, by decide⟩

/-- C6 (amended): `run` makes at most `1 + timeout_retries` subprocess
attempts; every attempt is invoked with the same fixed `timeout_seconds`
budget; under repeated timeouts the i-th attempt's prompt is the i-fold
clipping of the original (clipping keeps prompts of at most 1,200 characters
unchanged and otherwise keeps the first 1,200 characters plus a truncation
marker); and when every attempt times out the result is a
`command_timeout provider=<p> command=<argv>`-prefixed error. -/
theorem claim_C6_runner_retry :
    (∀ (p cmd : String) (tr : Nat) (prompt : String) (ts : Nat)
        (behavior : Nat → ParticipantRunner.AttemptOutcome),
      ((ParticipantRunner.run p cmd tr prompt ts behavior).invocations).length
        ≤ 1 + tr) ∧
    (∀ (p cmd : String) (tr : Nat) (prompt : String) (ts : Nat)
        (behavior : Nat → ParticipantRunner.AttemptOutcome)
        (inv : Nat × String),
      inv ∈ (ParticipantRunner.run p cmd tr prompt ts behavior).invocations →
      inv.1 = ts) ∧
    (∀ (p cmd : String) (tr : Nat) (prompt : String) (ts : Nat),
      (ParticipantRunner.run p cmd tr prompt ts (fun _ => .timeout)).invocations
        = (List.range (tr + 1)).map
            (fun i => (ts, ParticipantRunner._clip_prompt_for_retry^[i] prompt))) ∧
    (∀ prompt : String, prompt.length ≤ 1200 →
      ParticipantRunner._clip_prompt_for_retry prompt = prompt) ∧
    (∀ prompt : String, 1200 < prompt.length →
      (ParticipantRunner._clip_prompt_for_retry prompt).data
        = prompt.data.take 1200
          ++ ("\n\n[retry prompt clipped: " ++ toString (prompt.length - 1200)
              ++ " chars removed]").data) ∧
    (∀ (p cmd : String) (tr : Nat) (prompt : String) (ts : Nat),
      (ParticipantRunner.run p cmd tr prompt ts (fun _ => .timeout)).result
        = .error (ParticipantRunner.command_timeout_msg p cmd ts (tr + 1)) ∧
      ("command_timeout provider=" ++ p ++ " command=" ++ cmd).data
        <+: (ParticipantRunner.command_timeout_msg p cmd ts (tr + 1)).data) := by
  refine ⟨?_, ?_, ?_, ?_, ?_, ?_⟩
  · intro p cmd tr prompt ts behavior
    show ((ParticipantRunner.runAttemptLoop behavior ts
        (ParticipantRunner.command_not_found_msg p cmd)
        (ParticipantRunner.command_timeout_msg p cmd ts (tr + 1))
        (tr + 1) 0 prompt).1).length ≤ 1 + tr
    rw [Nat.add_comm 1 tr]
    exact runAttemptLoop_length behavior ts _ _ (tr + 1) 0 prompt
  · intro p cmd tr prompt ts behavior inv hmem
    exact runAttemptLoop_fst_mem behavior ts _ _ (tr + 1) 0 prompt inv hmem
  · intro p cmd tr prompt ts
    show (ParticipantRunner.runAttemptLoop (fun _ => .timeout) ts
        (ParticipantRunner.command_not_found_msg p cmd)
        (ParticipantRunner.command_timeout_msg p cmd ts (tr + 1))
        (tr + 1) 0 prompt).1 = _
    rw [runAttemptLoop_all_timeout ts _ _ (tr + 1) 0 prompt]
  · intro prompt h
    unfold ParticipantRunner._clip_prompt_for_retry
    rw [if_pos h]
  · intro prompt h
    unfold ParticipantRunner._clip_prompt_for_retry
    rw [if_neg (by omega)]
    simp [String.data_append, List.append_assoc]
  · intro p cmd tr prompt ts
    constructor
    · simp only [ParticipantRunner.run]
      rw [runAttemptLoop_all_timeout ts _ _ (tr + 1) 0 prompt]
    · refine ⟨(" timeout_seconds=" ++ toString ts ++ " attempts="
          ++ toString (tr + 1)).data, ?_⟩
      show _ = (ParticipantRunner.command_timeout_msg p cmd ts (tr + 1)).data
      unfold ParticipantRunner.command_timeout_msg
      simp [String.data_append, List.append_assoc]

set_option maxRecDepth 8192 in
/-- C6 witness: the runner retry loop evaluated at concrete inputs through
the theorem. -/
theorem claim_C6_runner_retry_witness :
    ParticipantRunner._clip_prompt_for_retry "short prompt" = "short prompt" ∧
    (ParticipantRunner._clip_prompt_for_retry
        ⟨List.replicate 1300 'a'⟩).data
      = (List.replicate 1300 'a').take 1200
        ++ ("\n\n[retry prompt clipped: " ++ toString (1300 - 1200)
            ++ " chars removed]").data :=
  ⟨claim_C6_runner_retry.2.2.2.1 "short prompt" (by decide),
   by
    have h := claim_C6_runner_retry.2.2.2.2.1 ⟨List.replicate 1300 'a'⟩
      (by norm_num [String.length, List.length_replicate])
    simpa [String.length, List.length_replicate] using h⟩


/-! ### Lemmas on the sandbox path normalization -/

theorem lstrip_cons_of {q : Char → Bool} {c : Char} (l : List Char)
    (h : q c = false) : (c :: l).dropWhile q = c :: l := by
  rw [List.dropWhile_cons, h]
  simp

theorem rstripWith_append {q : Char → Bool} {a : List Char} (b : List Char)
    (ha : (a.reverse).dropWhile q = a.reverse) :
    ((a ++ b).reverse.dropWhile q).reverse = a ++ (b.reverse.dropWhile q).reverse := by
  rw [List.reverse_append, List.dropWhile_append]
  by_cases hb : (b.reverse.dropWhile q).isEmpty
  · rw [if_pos hb, ha, List.reverse_reverse]
    rw [List.isEmpty_iff] at hb
    rw [hb]
    simp
  · rw [if_neg hb, List.reverse_append, List.reverse_reverse]

theorem takeWhile_append_all {p : Char → Bool} {a : List Char} (b : List Char)
    (h : ∀ x ∈ a, p x = true) : (a ++ b).takeWhile p = a ++ b.takeWhile p := by
  induction a with
  | nil => rfl
  | cons c cs ih =>
      rw [List.cons_append, List.takeWhile_cons, h c (List.mem_cons_self c cs)]
      simp only [if_true]
      rw [ih (fun x hx => h x (List.mem_cons_of_mem c hx))]
      rfl

theorem dropDotSlash_cons2 (c1 c2 : Char) (rest : List Char) :
    dropDotSlash (c1 :: c2 :: rest) =
      if c1 = '.' ∧ c2 = '/' then dropDotSlash rest else c1 :: c2 :: rest := rfl

theorem dropSlash_cons (c : Char) (rest : List Char) :
    dropSlash (c :: rest) = if c = '/' then dropSlash rest else c :: rest := rfl

theorem splitOnChar_cons (sep c : Char) (rest : List Char) :
    splitOnChar sep (c :: rest) =
      if c = sep then [] :: splitOnChar sep rest
      else consLine c (splitOnChar sep rest) := rfl

theorem splitOnChar_no_sep {sep : Char} {a : List Char} (h : ∀ x ∈ a, x ≠ sep) :
    splitOnChar sep a = [a] := by
  induction a with
  | nil => rfl
  | cons c cs ih =>
      rw [splitOnChar_cons, if_neg (h c (List.mem_cons_self c cs))]
      rw [ih (fun x hx => h x (List.mem_cons_of_mem c hx))]
      rfl

theorem splitOnChar_append {sep : Char} {a : List Char} (b : List Char)
    (h : ∀ x ∈ a, x ≠ sep) :
    splitOnChar sep (a ++ sep :: b) = a :: splitOnChar sep b := by
  induction a with
  | nil =>
      rw [List.nil_append, splitOnChar_cons, if_pos rfl]
  | cons c cs ih =>
      rw [List.cons_append, splitOnChar_cons, if_neg (h c (List.mem_cons_self c cs))]
      rw [ih (fun x hx => h x (List.mem_cons_of_mem c hx))]
      rfl

theorem clean_props {n : List Char} (h : isCleanComponent n = true) :
    n ≠ [] ∧ (∀ c ∈ n, c ≠ '/' ∧ c ≠ '\\' ∧ pyIsSpace c = false) ∧ n ≠ ['.'] := by
  unfold isCleanComponent at h
  rw [Bool.and_eq_true, Bool.and_eq_true] at h
  obtain ⟨⟨h1, h2⟩, h3⟩ := h
  refine ⟨?_, ?_, by simpa using h3⟩
  · intro he
    rw [he] at h1
    exact absurd h1 (by decide)
  · intro c hc
    have hx := List.all_eq_true.mp h2 c hc
    rw [Bool.and_eq_true, Bool.and_eq_true] at hx
    exact ⟨by simpa using hx.1.1, by simpa using hx.1.2, by simpa using hx.2⟩

theorem joinPath_cons2_data (c c2 : String) (rest : List String) :
    (joinPath (c :: c2 :: rest)).data = c.data ++ '/' :: (joinPath (c2 :: rest)).data := by
  show ((c ++ "/") ++ joinPath (c2 :: rest)).data = _
  rw [String.data_append, String.data_append]
  simp

theorem joinPath_chars {comps : List String}
    (h : ∀ c ∈ comps, isCleanComponent c.data = true) :
    ∀ ch ∈ (joinPath comps).data, ch ≠ '\\' ∧ pyIsSpace ch = false := by
  induction comps with
  | nil => intro ch hch; simp [joinPath] at hch
  | cons c cs ih =>
      cases cs with
      | nil =>
          intro ch hch
          have hp := (clean_props (h c (List.mem_cons_self c []))).2.1 ch hch
          exact ⟨hp.2.1, hp.2.2⟩
      | cons c2 rest =>
          intro ch hch
          rw [joinPath_cons2_data] at hch
          rcases List.mem_append.mp hch with hch1 | hch2
          · have hp := (clean_props (h c (List.mem_cons_self c _))).2.1 ch hch1
            exact ⟨hp.2.1, hp.2.2⟩
          · rcases List.mem_cons.mp hch2 with rfl | hch3
            · exact ⟨by decide, by decide⟩
            · exact ih (fun x hx => h x (List.mem_cons_of_mem c hx)) ch hch3

theorem replaceBackslash_id {l : List Char} (h : ∀ c ∈ l, c ≠ '\\') :
    replaceBackslash l = l := by
  unfold replaceBackslash
  rw [List.map_congr_left (fun c hc => if_neg (h c hc))]
  exact List.map_id l

theorem stripL_id {l : List Char} (h : ∀ c ∈ l, pyIsSpace c = false) :
    stripL l = l := by
  unfold stripL lstripL rstripL
  have h1 : l.dropWhile pyIsSpace = l := by
    cases l with
    | nil => rfl
    | cons c cs => exact lstrip_cons_of cs (h c (List.mem_cons_self c cs))
  rw [h1]
  have h2 : l.reverse.dropWhile pyIsSpace = l.reverse := by
    cases hr : l.reverse with
    | nil => rfl
    | cons c cs =>
        refine lstrip_cons_of cs (h c ?_)
        have : c ∈ l.reverse := by rw [hr]; exact List.mem_cons_self c cs
        exact List.mem_reverse.mp this
  rw [h2, List.reverse_reverse]

theorem sandboxNormalize_clean {comps : List String} (hne : comps ≠ [])
    (h : ∀ c ∈ comps, isCleanComponent c.data = true) :
    sandboxNormalize (joinPath comps).data = (joinPath comps).data := by
  obtain ⟨c1, cs, rfl⟩ : ∃ c1 cs, comps = c1 :: cs := by
    cases comps with
    | nil => exact absurd rfl hne
    | cons a b => exact ⟨a, b, rfl⟩
  have hchars := joinPath_chars h
  have hclean1 := clean_props (h c1 (List.mem_cons_self c1 cs))
  obtain ⟨d1, ds, hd⟩ : ∃ d1 ds, c1.data = d1 :: ds := by
    cases hc : c1.data with
    | nil => exact absurd hc hclean1.1
    | cons a b => exact ⟨a, b, rfl⟩
  have hjoin_head : ∃ tail, (joinPath (c1 :: cs)).data = d1 :: tail := by
    cases cs with
    | nil => exact ⟨ds, hd⟩
    | cons c2 rest =>
        refine ⟨ds ++ '/' :: (joinPath (c2 :: rest)).data, ?_⟩
        rw [joinPath_cons2_data, hd]
        rfl
  obtain ⟨tail, htail⟩ := hjoin_head
  have hd1 := hclean1.2.1 d1 (by rw [hd]; exact List.mem_cons_self d1 ds)
  unfold sandboxNormalize
  rw [replaceBackslash_id (fun c hc => (hchars c hc).1)]
  rw [stripL_id (fun c hc => (hchars c hc).2)]
  have hdds : dropDotSlash (joinPath (c1 :: cs)).data = (joinPath (c1 :: cs)).data := by
    rw [htail]
    cases tail with
    | nil => rfl
    | cons d2 tl =>
        rw [dropDotSlash_cons2]
        rw [if_neg]
        rintro ⟨rfl, rfl⟩
        -- d1 = '.' and d2 = '/'
        cases cs with
        | nil =>
            have h3 : c1.data = '.' :: '/' :: tl := htail
            rw [hd] at h3
            have hds : ds = '/' :: tl := (List.cons.inj h3).2
            have hmem : '/' ∈ c1.data := by
              rw [hd, hds]
              exact List.mem_cons_of_mem _ (List.mem_cons_self _ _)
            exact absurd rfl (hclean1.2.1 '/' hmem).1
        | cons c2 rest =>
            cases ds with
            | nil =>
                -- c1 = ['.'], excluded by cleanliness
                exact hclean1.2.2 (by rw [hd])
            | cons e es =>
                have : e = '/' := by
                  have h2 := htail
                  rw [joinPath_cons2_data, hd] at h2
                  exact (List.cons.inj (List.cons.inj h2).2).1
                have hmem : '/' ∈ c1.data := by
                  rw [hd, ← this]
                  exact List.mem_cons_of_mem _ (List.mem_cons_self _ _)
                exact absurd rfl (hclean1.2.1 '/' hmem).1
  rw [hdds, htail, dropSlash_cons, if_neg hd1.1]

theorem splitOnChar_joinPath {comps : List String} (hne : comps ≠ [])
    (h : ∀ c ∈ comps, isCleanComponent c.data = true) :
    splitOnChar '/' (joinPath comps).data = comps.map String.data := by
  induction comps with
  | nil => exact absurd rfl hne
  | cons c cs ih =>
      cases cs with
      | nil =>
          show splitOnChar '/' c.data = List.map String.data [c]
          rw [splitOnChar_no_sep
            (fun x hx => ((clean_props (h c (List.mem_cons_self c []))).2.1 x hx).1)]
          rfl
      | cons c2 rest =>
          rw [joinPath_cons2_data]
          rw [splitOnChar_append _
            (fun x hx => ((clean_props (h c (List.mem_cons_self c _))).2.1 x hx).1)]
          rw [ih (by simp) (fun x hx => h x (List.mem_cons_of_mem c hx))]
          rfl

theorem leafName_concat {cs : List String} {leaf : String}
    (h : ∀ c ∈ cs ++ [leaf], isCleanComponent c.data = true) :
    leafName (joinPath (cs ++ [leaf])).data = leaf.data := by
  unfold leafName
  rw [splitOnChar_joinPath (by simp) h]
  have hfilter : ((cs ++ [leaf]).map String.data).filter
      (fun p => ¬ (p = [] ∨ p = ['.'])) = (cs ++ [leaf]).map String.data := by
    rw [List.filter_eq_self]
    intro a ha
    obtain ⟨x, hx, rfl⟩ := List.mem_map.mp ha
    have hp := clean_props (h x hx)
    simp only [decide_eq_true_eq]
    push_neg
    exact ⟨hp.1, hp.2.2⟩
  rw [hfilter, List.map_append]
  simp only [List.map_cons, List.map_nil]
  rw [List.getLast?_concat]
  rfl

theorem leaf_suffix_joinPath (cs : List String) (leaf : String) :
    leaf.data <:+ (joinPath (cs ++ [leaf])).data := by
  induction cs with
  | nil => exact List.suffix_refl _
  | cons c cs2 ih =>
      rw [List.cons_append]
      obtain ⟨m, ms, hm⟩ : ∃ m ms, cs2 ++ [leaf] = m :: ms := by
        cases hx : cs2 ++ [leaf] with
        | nil => exact absurd hx (by simp)
        | cons a b => exact ⟨a, b, rfl⟩
      rw [hm, joinPath_cons2_data, ← hm]
      have hstep : (joinPath (cs2 ++ [leaf])).data
          <:+ c.data ++ '/' :: (joinPath (cs2 ++ [leaf])).data :=
        ⟨c.data ++ ['/'], by simp⟩
      exact ih.trans hstep

theorem if_true_chain {c : Prop} [Decidable c] {x : Bool}
    (h : x = true) : (if c then true else x) = true := by
  by_cases hc : c
  · rw [if_pos hc]
  · rw [if_neg hc]
    exact h


theorem replaceBackslash_append (a b : List Char) :
    replaceBackslash (a ++ b) = replaceBackslash a ++ replaceBackslash b :=
  List.map_append _ a b

theorem replaceBackslash_cons (c : Char) (l : List Char) :
    replaceBackslash (c :: l) = (if c = '\\' then '/' else c) :: replaceBackslash l := rfl

theorem stripL_append_left {a : List Char} (b : List Char) {c : Char} {t : List Char}
    (hshape : a = c :: t) (hc : pyIsSpace c = false)
    (hlast : (a.reverse).dropWhile pyIsSpace = a.reverse) :
    stripL (a ++ b) = a ++ rstripL b := by
  unfold stripL lstripL
  have hl : (a ++ b).dropWhile pyIsSpace = a ++ b := by
    rw [hshape, List.cons_append]
    exact lstrip_cons_of _ hc
  rw [hl]
  show ((a ++ b).reverse.dropWhile pyIsSpace).reverse
    = a ++ ((b.reverse.dropWhile pyIsSpace).reverse)
  exact rstripWith_append b hlast

mutual
theorem bootstrapEntry_not_ignored (r : String) (e : FsEntry) (p : String)
    (h : p ∈ bootstrapEntry r e) : _is_sandbox_ignored p = false :=
  match e, h with
  | .file n, h => by
      unfold bootstrapEntry at h
      split at h
      · exact absurd h (by simp)
      · next hig =>
          rw [List.mem_singleton.mp h]
          exact Bool.eq_false_iff.mpr hig
  | .dir n children, h => by
      unfold bootstrapEntry at h
      split at h
      · exact absurd h (by simp)
      · exact bootstrapForest_not_ignored (joinRel r n) children p h
theorem bootstrapForest_not_ignored (r : String) (f : FsForest) (p : String)
    (h : p ∈ bootstrapForest r f) : _is_sandbox_ignored p = false :=
  match f, h with
  | .nil, h => absurd h (by simp [bootstrapForest])
  | .cons e rest, h => by
      unfold bootstrapForest at h
      rcases List.mem_append.mp h with h1 | h2
      · exact bootstrapEntry_not_ignored r e p h1
      · exact bootstrapForest_not_ignored r rest p h2
end

/-- Any path whose first segment is an ignored head is filtered, whatever
follows the separator. -/
theorem sandboxIgnored_head_append (a X : List Char)
    (hmem : a ∈ ignored_heads)
    (hchars : ∀ c ∈ a, c ≠ '\\' ∧ pyIsSpace c = false ∧ c ≠ '/')
    (c1 c2 : Char) (r : List Char) (ha : a = c1 :: c2 :: r) :
    sandboxIgnoredCore (sandboxNormalize (a ++ '/' :: X)) = true := by
  subst ha
  have hc1 := hchars c1 (List.mem_cons_self _ _)
  have hc2 := hchars c2 (List.mem_cons_of_mem _ (List.mem_cons_self _ _))
  unfold sandboxNormalize
  rw [show (c1 :: c2 :: r) ++ '/' :: X = ((c1 :: c2 :: r) ++ ['/']) ++ X by simp]
  rw [replaceBackslash_append]
  rw [replaceBackslash_id (l := (c1 :: c2 :: r) ++ ['/']) ?hbs]
  case hbs =>
    intro c hc
    rcases List.mem_append.mp hc with hc | hc
    · exact (hchars c hc).1
    · rw [List.mem_singleton.mp hc]
      decide
  rw [stripL_append_left (replaceBackslash X)
    (show (c1 :: c2 :: r) ++ ['/'] = c1 :: (c2 :: r ++ ['/']) by simp) hc1.2.1 ?hlast]
  case hlast =>
    rw [List.reverse_append]
    exact lstrip_cons_of _ (by decide)
  rw [show ((c1 :: c2 :: r) ++ ['/']) ++ rstripL (replaceBackslash X)
      = c1 :: c2 :: (r ++ '/' :: rstripL (replaceBackslash X)) by simp]
  rw [dropDotSlash_cons2, if_neg (fun hand => hc2.2.2 hand.2)]
  rw [dropSlash_cons, if_neg hc1.2.2]
  unfold sandboxIgnoredCore
  rw [if_neg (by simp)]
  rw [if_pos ?hhd]
  case hhd =>
    rw [show c1 :: c2 :: (r ++ '/' :: rstripL (replaceBackslash X))
        = (c1 :: c2 :: r) ++ '/' :: rstripL (replaceBackslash X) by simp]
    rw [takeWhile_append_all _ (fun x hx => by
      simpa using (hchars x hx).2.2)]
    rw [List.takeWhile_cons, if_neg (by simp)]
    simpa using hmem


theorem rstripL_append_left (a b : List Char)
    (ha : (a.reverse).dropWhile pyIsSpace = a.reverse) :
    rstripL (a ++ b) = a ++ rstripL b := by
  unfold rstripL
  exact rstripWith_append b ha

theorem rstripDotSpace_append_left (a b : List Char)
    (ha : (a.reverse).dropWhile (fun c => c = ' ' || c = '.') = a.reverse) :
    rstripDotSpace (a ++ b) = a ++ rstripDotSpace b := by
  unfold rstripDotSpace
  exact rstripWith_append b ha

/-- The leaf checks of `_is_sandbox_ignored`: a clean path whose last
component is reserved, an env file, a bytecode/key/cert suffix or a
secret-named file is filtered, wherever it sits in the tree. -/
theorem ignored_of_clean_leaf (cs : List String) (leaf : String)
    (hclean : ∀ c ∈ cs ++ [leaf], isCleanComponent c.data = true)
    (hcond :
      _is_windows_reserved_device_name leaf.data = true
      ∨ lowerL leaf.data = ".env".data
      ∨ ".env.".data <+: lowerL leaf.data
      ∨ ".pyc".data <:+ leaf.data
      ∨ ".pyo".data <:+ leaf.data
      ∨ ".pem".data <:+ lowerL leaf.data
      ∨ ".key".data <:+ lowerL leaf.data
      ∨ secretLeafMatch (lowerL leaf.data) = true) :
    _is_sandbox_ignored (joinPath (cs ++ [leaf])) = true := by
  unfold _is_sandbox_ignored
  rw [sandboxNormalize_clean (by simp) hclean]
  have hleaf := leafName_concat hclean
  have hjoin_ne : (joinPath (cs ++ [leaf])).data ≠ [] := by
    have hsuf := leaf_suffix_joinPath cs leaf
    have hlne := (clean_props (hclean leaf (by simp))).1
    intro h0
    rw [h0] at hsuf
    exact hlne (by simpa using hsuf)
  unfold sandboxIgnoredCore
  rw [hleaf]
  rw [if_neg (by simpa [List.isEmpty_iff] using hjoin_ne)]
  rcases hcond with hres | henv | henvp | hpyc | hpyo | hpem | hkey | hsec
  · apply if_true_chain
    apply if_true_chain
    rw [if_pos hres]
  · apply if_true_chain
    apply if_true_chain
    apply if_true_chain
    rw [if_pos (Bool.or_eq_true_iff.mpr (Or.inl (decide_eq_true henv)))]
  · apply if_true_chain
    apply if_true_chain
    apply if_true_chain
    rw [if_pos (Bool.or_eq_true_iff.mpr (Or.inr (List.isPrefixOf_iff_prefix.mpr henvp)))]
  · apply if_true_chain
    have hs : ".pyc".data <:+ (joinPath (cs ++ [leaf])).data :=
      hpyc.trans (leaf_suffix_joinPath cs leaf)
    rw [if_pos (Bool.or_eq_true_iff.mpr (Or.inl (List.isSuffixOf_iff_suffix.mpr hs)))]
  · apply if_true_chain
    have hs : ".pyo".data <:+ (joinPath (cs ++ [leaf])).data :=
      hpyo.trans (leaf_suffix_joinPath cs leaf)
    rw [if_pos (Bool.or_eq_true_iff.mpr (Or.inr (List.isSuffixOf_iff_suffix.mpr hs)))]
  · apply if_true_chain
    apply if_true_chain
    apply if_true_chain
    apply if_true_chain
    rw [if_pos (Bool.or_eq_true_iff.mpr (Or.inl (List.isSuffixOf_iff_suffix.mpr hpem)))]
  · apply if_true_chain
    apply if_true_chain
    apply if_true_chain
    apply if_true_chain
    rw [if_pos (Bool.or_eq_true_iff.mpr (Or.inr (List.isSuffixOf_iff_suffix.mpr hkey)))]
  · apply if_true_chain
    apply if_true_chain
    apply if_true_chain
    apply if_true_chain
    apply if_true_chain
    exact hsec

/-- A reserved device stem keeps matching after any extension: the check
strips trailing spaces and dots, lowercases, and keeps only what precedes the
first `:` and the first `.`. -/
theorem reserved_with_ext (stem E : List Char) (c0 cl : Char) (t0 : List Char)
    (hshape : stem = c0 :: t0)
    (hc0 : pyIsSpace c0 = false)
    (hl : stem.getLast? = some cl)
    (hclws : pyIsSpace cl = false) (hcldot : (cl = ' ' || cl = '.') = false)
    (hlow : lowerL stem = stem)
    (hchars : ∀ c ∈ stem, c ≠ ':' ∧ c ≠ '.')
    (hstem : stem ∈ (["con".data, "prn".data, "aux".data, "nul".data] : List (List Char))
      ∨ reservedComLpt stem = true) :
    _is_windows_reserved_device_name (stem ++ '.' :: E) = true := by
  obtain ⟨rr, hrev⟩ : ∃ rr, stem.reverse = cl :: rr := by
    cases hr : stem.reverse with
    | nil =>
        rw [← List.head?_reverse, hr] at hl
        exact absurd hl (by simp)
    | cons a b =>
        rw [← List.head?_reverse, hr] at hl
        simp only [List.head?_cons, Option.some.injEq] at hl
        exact ⟨b, by rw [hl]⟩
  have hstrip : stripL (stem ++ '.' :: E) = stem ++ rstripL ('.' :: E) := by
    apply stripL_append_left _ hshape hc0
    rw [hrev]
    exact lstrip_cons_of _ hclws
  have hB : rstripL ('.' :: E) = '.' :: rstripL E := by
    rw [show ('.' :: E) = ['.'] ++ E from rfl]
    rw [rstripL_append_left ['.'] E (by decide)]
    rfl
  have hstep2 : rstripDotSpace (stem ++ '.' :: rstripL E)
      = stem ++ rstripDotSpace ('.' :: rstripL E) := by
    apply rstripDotSpace_append_left
    rw [hrev]
    exact lstrip_cons_of _ hcldot
  have hC : rstripDotSpace ('.' :: rstripL E) = []
      ∨ ∃ W, rstripDotSpace ('.' :: rstripL E) = '.' :: W := by
    unfold rstripDotSpace
    rw [show ('.' :: rstripL E).reverse = (rstripL E).reverse ++ ['.'] by simp]
    rw [List.dropWhile_append]
    by_cases hw : ((rstripL E).reverse.dropWhile (fun c => c = ' ' || c = '.')).isEmpty
    · rw [if_pos hw]
      left
      rfl
    · rw [if_neg hw]
      right
      exact ⟨((rstripL E).reverse.dropWhile (fun c => c = ' ' || c = '.')).reverse,
        by rw [List.reverse_append]; rfl⟩
  have hcolon : ∀ c ∈ stem, (decide (c ≠ ':')) = true := by
    intro c hc
    simpa using (hchars c hc).1
  have hdot : ∀ c ∈ stem, (decide (c ≠ '.')) = true := by
    intro c hc
    simpa using (hchars c hc).2
  have hN : lowerL (rstripDotSpace (stripL (stem ++ '.' :: E)))
      = stem ++ lowerL (rstripDotSpace ('.' :: rstripL E)) := by
    rw [hstrip, hB, hstep2]
    unfold lowerL
    rw [List.map_append]
    unfold lowerL at hlow
    rw [hlow]
  have hfinal : ((stem ++ lowerL (rstripDotSpace ('.' :: rstripL E))).takeWhile
      (· ≠ ':')).takeWhile (· ≠ '.') = stem := by
    rcases hC with hc | ⟨W, hc⟩
    · rw [hc]
      rw [show lowerL ([] : List Char) = [] from rfl, List.append_nil]
      have h1 : stem.takeWhile (fun c => decide (c ≠ ':')) = stem := by
        have := takeWhile_append_all (p := fun c => decide (c ≠ ':')) [] hcolon
        simpa using this
      have h2 : stem.takeWhile (fun c => decide (c ≠ '.')) = stem := by
        have := takeWhile_append_all (p := fun c => decide (c ≠ '.')) [] hdot
        simpa using this
      rw [h1, h2]
    · rw [hc]
      have hld : lowerL ('.' :: W) = '.' :: lowerL W := by
        unfold lowerL
        rw [List.map_cons]
        rw [show Char.toLower '.' = '.' from by decide]
      rw [hld]
      rw [takeWhile_append_all _ hcolon]
      rw [List.takeWhile_cons, if_pos (by decide)]
      rw [takeWhile_append_all _ hdot]
      rw [List.takeWhile_cons, if_neg (by decide)]
      rw [List.append_nil]
  unfold _is_windows_reserved_device_name
  rw [hN]
  rw [if_neg (by rw [hshape]; simp)]
  rw [hfinal]
  rcases hstem with hmem | hcl
  · rw [if_pos hmem]
  · exact if_true_chain hcl


/-! ### Claims C5, C8 and C7 -/

theorem ignored_head_path (hd : List Char) (t : String)
    (hmem : hd ∈ ignored_heads)
    (hchars : ∀ c ∈ hd, c ≠ '\\' ∧ pyIsSpace c = false ∧ c ≠ '/')
    (c1 c2 : Char) (r : List Char) (ha : hd = c1 :: c2 :: r) :
    _is_sandbox_ignored (String.mk hd ++ "/" ++ t) = true := by
  unfold _is_sandbox_ignored
  rw [show (String.mk hd ++ "/" ++ t).data = hd ++ '/' :: t.data by
    simp [String.data_append]]
  exact sandboxIgnored_head_append hd t.data hmem hchars c1 c2 r ha

theorem reserved_str_ext (name ext : String) (c0 cl : Char) (t0 : List Char)
    (h1 : name.data = c0 :: t0) (h2 : pyIsSpace c0 = false)
    (h3 : name.data.getLast? = some cl)
    (h4 : pyIsSpace cl = false) (h5 : (cl = ' ' || cl = '.') = false)
    (h6 : lowerL name.data = name.data)
    (h7 : ∀ c ∈ name.data, c ≠ ':' ∧ c ≠ '.')
    (h8 : name.data ∈ (["con".data, "prn".data, "aux".data, "nul".data] : List (List Char))
      ∨ reservedComLpt name.data = true) :
    _is_windows_reserved_device_name ((name ++ "." ++ ext).data) = true := by
  rw [show (name ++ "." ++ ext).data = name.data ++ '.' :: ext.data by
    simp [String.data_append]]
  exact reserved_with_ext name.data ext.data c0 cl t0 h1 h2 h3 h4 h5 h6 h7 h8

/-- Claim C5: every relative path whose first segment is one of the ignored
heads is filtered by `_is_sandbox_ignored` (both the bare head and any path
below it); at any depth, a leaf named `.env`, starting with `.env.`, ending
in `.pyc`, `.pyo`, `.pem` or `.key`, or matching the secret-name pattern is
filtered; the bootstrap walk copies only non-ignored paths, so an ignored
path is never copied into the sandbox. -/
theorem claim_C5_sandbox_ignore_filter :
    (∀ hd : List Char, hd ∈ ignored_heads →
      _is_sandbox_ignored (String.mk hd) = true) ∧
    (∀ (hd : List Char) (t : String), hd ∈ ignored_heads →
      _is_sandbox_ignored (String.mk hd ++ "/" ++ t) = true) ∧
    (∀ (cs : List String) (leaf : String),
      (∀ c ∈ cs ++ [leaf], isCleanComponent c.data = true) →
      (lowerL leaf.data = ".env".data
        ∨ ".env.".data <+: lowerL leaf.data
        ∨ ".pyc".data <:+ leaf.data
        ∨ ".pyo".data <:+ leaf.data
        ∨ ".pem".data <:+ lowerL leaf.data
        ∨ ".key".data <:+ lowerL leaf.data
        ∨ secretLeafMatch (lowerL leaf.data) = true) →
      _is_sandbox_ignored (joinPath (cs ++ [leaf])) = true) ∧
    (∀ (tree : FsForest) (p : String),
      p ∈ bootstrap_sandbox_files tree → _is_sandbox_ignored p = false) ∧
    (∀ (tree : FsForest) (p : String),
      _is_sandbox_ignored p = true → p ∉ bootstrap_sandbox_files tree) := by
  refine ⟨?_, ?_, ?_, ?_, ?_⟩
  · intro hd h
    fin_cases h <;> decide
  · intro hd t h
    fin_cases h
    · exact ignored_head_path ".git".data t (by decide) (by decide) '.' 'g' ['i', 't'] (by decide)
    · exact ignored_head_path ".agents".data t (by decide) (by decide) '.' 'a' ['g', 'e', 'n', 't', 's'] (by decide)
    · exact ignored_head_path ".claude".data t (by decide) (by decide) '.' 'c' ['l', 'a', 'u', 'd', 'e'] (by decide)
    · exact ignored_head_path ".venv".data t (by decide) (by decide) '.' 'v' ['e', 'n', 'v'] (by decide)
    · exact ignored_head_path "__pycache__".data t (by decide) (by decide) '_' '_' ['p', 'y', 'c', 'a', 'c', 'h', 'e', '_', '_'] (by decide)
    · exact ignored_head_path ".pytest_cache".data t (by decide) (by decide) '.' 'p' ['y', 't', 'e', 's', 't', '_', 'c', 'a', 'c', 'h', 'e'] (by decide)
    · exact ignored_head_path ".ruff_cache".data t (by decide) (by decide) '.' 'r' ['u', 'f', 'f', '_', 'c', 'a', 'c', 'h', 'e'] (by decide)
    · exact ignored_head_path "node_modules".data t (by decide) (by decide) 'n' 'o' ['d', 'e', '_', 'm', 'o', 'd', 'u', 'l', 'e', 's'] (by decide)
    · exact ignored_head_path ".mypy_cache".data t (by decide) (by decide) '.' 'm' ['y', 'p', 'y', '_', 'c', 'a', 'c', 'h', 'e'] (by decide)
    · exact ignored_head_path ".idea".data t (by decide) (by decide) '.' 'i' ['d', 'e', 'a'] (by decide)
    · exact ignored_head_path ".vscode".data t (by decide) (by decide) '.' 'v' ['s', 'c', 'o', 'd', 'e'] (by decide)
  · intro cs leaf hclean hcond
    apply ignored_of_clean_leaf cs leaf hclean
    tauto
  · intro tree p h
    exact bootstrapForest_not_ignored "" tree p h
  · intro tree p hig hmem
    have h2 := bootstrapForest_not_ignored "" tree p hmem
    rw [hig] at h2
    exact Bool.noConfusion h2

/-- Witness for C5 at concrete inputs: the bare head `.git`, a path below
it, a `.key` leaf under `src/`, a copied ordinary file, and a secret-named
file never copied. -/
theorem claim_C5_sandbox_ignore_filter_witness :
    _is_sandbox_ignored (String.mk ".git".data) = true ∧
    _is_sandbox_ignored (String.mk ".git".data ++ "/" ++ "hooks") = true ∧
    _is_sandbox_ignored (joinPath (["src"] ++ ["app.key"])) = true ∧
    _is_sandbox_ignored "main.py" = false ∧
    "secrets.txt" ∉ bootstrap_sandbox_files
      (FsForest.cons (FsEntry.file "secrets.txt") FsForest.nil) := by
  refine ⟨?_, ?_, ?_, ?_, ?_⟩
  · exact claim_C5_sandbox_ignore_filter.1 ".git".data (by decide)
  · exact claim_C5_sandbox_ignore_filter.2.1 ".git".data "hooks" (by decide)
  · exact claim_C5_sandbox_ignore_filter.2.2.1 ["src"] "app.key" (by decide)
      (Or.inr (Or.inr (Or.inr (Or.inr (Or.inr (Or.inl (by decide)))))))
  · exact claim_C5_sandbox_ignore_filter.2.2.2.1
      (FsForest.cons (FsEntry.file "main.py") FsForest.nil) "main.py" (by decide)
  · exact claim_C5_sandbox_ignore_filter.2.2.2.2
      (FsForest.cons (FsEntry.file "secrets.txt") FsForest.nil) "secrets.txt" (by decide)

/-- Claim C8 counterexample: the reserved-device-name rejection is not
gated on the Windows platform.  `_is_windows_reserved_device_name` consults
no platform selector, so `nul.txt` is filtered — and never copied by the
bootstrap walk — on every platform, contradicting the claim that on
non-Windows platforms it is treated as an ordinary file and copied. -/
theorem claim_C8_reserved_names_counterexample :
    _is_sandbox_ignored "nul.txt" = true ∧
    bootstrap_sandbox_files (FsForest.cons (FsEntry.file "nul.txt") FsForest.nil) = [] := by
  decide

/-- Claim C8 (amended): the sandbox filter rejects the reserved device
names `con`, `prn`, `aux`, `nul`, `com1..9`, `lpt1..9` regardless of
extension, unconditionally — the check contains no platform selector, so it
applies on every platform, not only on Windows. -/
theorem claim_C8_reserved_names :
    (∀ (cs : List String) (leaf : String),
      (∀ c ∈ cs ++ [leaf], isCleanComponent c.data = true) →
      _is_windows_reserved_device_name leaf.data = true →
      _is_sandbox_ignored (joinPath (cs ++ [leaf])) = true) ∧
    (∀ name : String, name ∈ RESERVED_DEVICE_BASES →
      _is_windows_reserved_device_name name.data = true ∧
      ∀ ext : String, _is_windows_reserved_device_name ((name ++ "." ++ ext).data) = true) := by
  constructor
  · intro cs leaf hclean hres
    exact ignored_of_clean_leaf cs leaf hclean (Or.inl hres)
  · intro name h
    simp only [RESERVED_DEVICE_BASES, List.mem_cons, List.not_mem_nil, or_false] at h
    rcases h with rfl|rfl|rfl|rfl|rfl|rfl|rfl|rfl|rfl|rfl|rfl|rfl|rfl|rfl|rfl|rfl|rfl|rfl|rfl|rfl|rfl|rfl
    · exact ⟨by decide, fun ext => reserved_str_ext "con" ext 'c' 'n' ['o', 'n']
        (by decide) (by decide) (by decide) (by decide) (by decide) (by decide)
        (by decide) (Or.inl (by decide))⟩
    · exact ⟨by decide, fun ext => reserved_str_ext "prn" ext 'p' 'n' ['r', 'n']
        (by decide) (by decide) (by decide) (by decide) (by decide) (by decide)
        (by decide) (Or.inl (by decide))⟩
    · exact ⟨by decide, fun ext => reserved_str_ext "aux" ext 'a' 'x' ['u', 'x']
        (by decide) (by decide) (by decide) (by decide) (by decide) (by decide)
        (by decide) (Or.inl (by decide))⟩
    · exact ⟨by decide, fun ext => reserved_str_ext "nul" ext 'n' 'l' ['u', 'l']
        (by decide) (by decide) (by decide) (by decide) (by decide) (by decide)
        (by decide) (Or.inl (by decide))⟩
    · exact ⟨by decide, fun ext => reserved_str_ext "com1" ext 'c' '1' ['o', 'm', '1']
        (by decide) (by decide) (by decide) (by decide) (by decide) (by decide)
        (by decide) (Or.inr (by decide))⟩
    · exact ⟨by decide, fun ext => reserved_str_ext "com2" ext 'c' '2' ['o', 'm', '2']
        (by decide) (by decide) (by decide) (by decide) (by decide) (by decide)
        (by decide) (Or.inr (by decide))⟩
    · exact ⟨by decide, fun ext => reserved_str_ext "com3" ext 'c' '3' ['o', 'm', '3']
        (by decide) (by decide) (by decide) (by decide) (by decide) (by decide)
        (by decide) (Or.inr (by decide))⟩
    · exact ⟨by decide, fun ext => reserved_str_ext "com4" ext 'c' '4' ['o', 'm', '4']
        (by decide) (by decide) (by decide) (by decide) (by decide) (by decide)
        (by decide) (Or.inr (by decide))⟩
    · exact ⟨by decide, fun ext => reserved_str_ext "com5" ext 'c' '5' ['o', 'm', '5']
        (by decide) (by decide) (by decide) (by decide) (by decide) (by decide)
        (by decide) (Or.inr (by decide))⟩
    · exact ⟨by decide, fun ext => reserved_str_ext "com6" ext 'c' '6' ['o', 'm', '6']
        (by decide) (by decide) (by decide) (by decide) (by decide) (by decide)
        (by decide) (Or.inr (by decide))⟩
    · exact ⟨by decide, fun ext => reserved_str_ext "com7" ext 'c' '7' ['o', 'm', '7']
        (by decide) (by decide) (by decide) (by decide) (by decide) (by decide)
        (by decide) (Or.inr (by decide))⟩
    · exact ⟨by decide, fun ext => reserved_str_ext "com8" ext 'c' '8' ['o', 'm', '8']
        (by decide) (by decide) (by decide) (by decide) (by decide) (by decide)
        (by decide) (Or.inr (by decide))⟩
    · exact ⟨by decide, fun ext => reserved_str_ext "com9" ext 'c' '9' ['o', 'm', '9']
        (by decide) (by decide) (by decide) (by decide) (by decide) (by decide)
        (by decide) (Or.inr (by decide))⟩
    · exact ⟨by decide, fun ext => reserved_str_ext "lpt1" ext 'l' '1' ['p', 't', '1']
        (by decide) (by decide) (by decide) (by decide) (by decide) (by decide)
        (by decide) (Or.inr (by decide))⟩
    · exact ⟨by decide, fun ext => reserved_str_ext "lpt2" ext 'l' '2' ['p', 't', '2']
        (by decide) (by decide) (by decide) (by decide) (by decide) (by decide)
        (by decide) (Or.inr (by decide))⟩
    · exact ⟨by decide, fun ext => reserved_str_ext "lpt3" ext 'l' '3' ['p', 't', '3']
        (by decide) (by decide) (by decide) (by decide) (by decide) (by decide)
        (by decide) (Or.inr (by decide))⟩
    · exact ⟨by decide, fun ext => reserved_str_ext "lpt4" ext 'l' '4' ['p', 't', '4']
        (by decide) (by decide) (by decide) (by decide) (by decide) (by decide)
        (by decide) (Or.inr (by decide))⟩
    · exact ⟨by decide, fun ext => reserved_str_ext "lpt5" ext 'l' '5' ['p', 't', '5']
        (by decide) (by decide) (by decide) (by decide) (by decide) (by decide)
        (by decide) (Or.inr (by decide))⟩
    · exact ⟨by decide, fun ext => reserved_str_ext "lpt6" ext 'l' '6' ['p', 't', '6']
        (by decide) (by decide) (by decide) (by decide) (by decide) (by decide)
        (by decide) (Or.inr (by decide))⟩
    · exact ⟨by decide, fun ext => reserved_str_ext "lpt7" ext 'l' '7' ['p', 't', '7']
        (by decide) (by decide) (by decide) (by decide) (by decide) (by decide)
        (by decide) (Or.inr (by decide))⟩
    · exact ⟨by decide, fun ext => reserved_str_ext "lpt8" ext 'l' '8' ['p', 't', '8']
        (by decide) (by decide) (by decide) (by decide) (by decide) (by decide)
        (by decide) (Or.inr (by decide))⟩
    · exact ⟨by decide, fun ext => reserved_str_ext "lpt9" ext 'l' '9' ['p', 't', '9']
        (by decide) (by decide) (by decide) (by decide) (by decide) (by decide)
        (by decide) (Or.inr (by decide))⟩

/-- Witness for C8 at concrete inputs: `nul` as a bare clean leaf is
filtered, and `com3` keeps matching with an extension attached. -/
theorem claim_C8_reserved_names_witness :
    _is_sandbox_ignored (joinPath ([] ++ ["nul"])) = true ∧
    _is_windows_reserved_device_name ("com3" : String).data = true ∧
    _is_windows_reserved_device_name ((("com3" : String) ++ "." ++ "txt").data) = true := by
  refine ⟨?_, ?_, ?_⟩
  · exact claim_C8_reserved_names.1 [] "nul" (by decide) (by decide)
  · exact (claim_C8_reserved_names.2 "com3" (by decide)).1
  · exact (claim_C8_reserved_names.2 "com3" (by decide)).2 "txt"

/-- Claim C7 counterexample: out-of-range values for the three bounded
policy fields are accepted and silently clamped into range by `create_task`,
not refused: `max_rounds = 25` becomes `20`, `evolution_level = -3` becomes
`0`, `self_loop_mode = 7` becomes `1`. -/
theorem claim_C7_create_task_bounds_counterexample :
    create_task_max_rounds 25 = 20 ∧ (25 : Int) ≠ 20 ∧
    create_task_evolution_level (-3) = 0 ∧ ((-3) : Int) ≠ 0 ∧
    create_task_self_loop_mode 7 = 1 ∧ (7 : Int) ≠ 1 := by
  decide

/-- Claim C7 (amended): `create_task` clamps the three bounded policy
fields into range instead of rejecting them — `max_rounds` into `[1, 20]`,
`evolution_level` into `[0, 2]`, `self_loop_mode` into `{0, 1}` — and
leaves in-range values unchanged; no validation error exists for these
fields. -/
theorem claim_C7_create_task_bounds :
    (∀ x : Int, 1 ≤ create_task_max_rounds x ∧ create_task_max_rounds x ≤ 20) ∧
    (∀ x : Int, 1 ≤ x → x ≤ 20 → create_task_max_rounds x = x) ∧
    (∀ x : Int, 0 ≤ create_task_evolution_level x ∧ create_task_evolution_level x ≤ 2) ∧
    (∀ x : Int, 0 ≤ x → x ≤ 2 → create_task_evolution_level x = x) ∧
    (∀ x : Int, create_task_self_loop_mode x = 0 ∨ create_task_self_loop_mode x = 1) ∧
    (∀ x : Int, (x = 0 ∨ x = 1) → create_task_self_loop_mode x = x) := by
  refine ⟨?_, ?_, ?_, ?_, ?_, ?_⟩
  · intro x
    unfold create_task_max_rounds
    omega
  · intro x h1 h2
    unfold create_task_max_rounds
    omega
  · intro x
    unfold create_task_evolution_level
    omega
  · intro x h1 h2
    unfold create_task_evolution_level
    omega
  · intro x
    unfold create_task_self_loop_mode
    omega
  · intro x h
    unfold create_task_self_loop_mode
    omega

/-- Witness for C7: in-range values are preserved exactly. -/
theorem claim_C7_create_task_bounds_witness :
    create_task_max_rounds 5 = 5 ∧ create_task_evolution_level 2 = 2 ∧
    create_task_self_loop_mode 1 = 1 :=
  ⟨claim_C7_create_task_bounds.2.1 5 (by decide) (by decide),
    claim_C7_create_task_bounds.2.2.2.1 2 (by decide) (by decide),
    claim_C7_create_task_bounds.2.2.2.2.2 1 (Or.inr rfl)⟩

end AweAgentcheck
